import Mathlib

/-!
Shallow embedding of the Snapped admin-panel client
(src/admin_panel/app.js and src/admin_panel/charts.js).

JavaScript Map objects are modelled as association lists with
insertion-order-preserving set/delete, JavaScript Set objects as
duplicate-free lists, and the DOM / timer environment as explicit
state threaded through each operation.
-/

/-! ## JS Map and Set primitives -/

/-- Lookup in a JS Map (assoc list), mirroring Map.prototype.get. -/
def jsMapGet {β : Type} (m : List (String × β)) (k : String) : Option β :=
  (m.find? (fun p => p.1 == k)).map Prod.snd

/-- Update in a JS Map, mirroring Map.prototype.set: replaces the value in
place when the key is present, otherwise appends. -/
def jsMapSet {β : Type} (m : List (String × β)) (k : String) (v : β) :
    List (String × β) :=
  if m.any (fun p => p.1 == k) then
    m.map (fun p => if p.1 == k then (k, v) else p)
  else m ++ [(k, v)]

/-- Deletion from a JS Map, mirroring Map.prototype.delete. -/
def jsMapDelete {β : Type} (m : List (String × β)) (k : String) :
    List (String × β) :=
  m.filter (fun p => p.1 != k)

/-- Insertion into a JS Set, mirroring Set.prototype.add. -/
def jsSetAdd (s : List String) (k : String) : List String :=
  if s.contains k then s else s ++ [k]

/-- Deletion from a JS Set, mirroring Set.prototype.delete. -/
def jsSetDelete (s : List String) (k : String) : List String :=
  s.filter (fun x => x != k)

/-! ## LoadingManager (charts.js lines 700-726) -/

/-- State of the LoadingManager: the Set of in-flight keys, whether the
DOM overlay element exists, and whether it is currently displayed. -/
structure LoadingManager where
  loadingStates : List String
  hasOverlay : Bool
  overlayShown : Bool
  deriving Repr, DecidableEq

/-- LoadingManager.show(key): adds the key to the set and displays the
overlay (style.display = flex) when the overlay element exists. -/
def LoadingManager.show (lm : LoadingManager) (k : String) : LoadingManager :=
  { lm with
    loadingStates := jsSetAdd lm.loadingStates k
    overlayShown := if lm.hasOverlay then true else lm.overlayShown }

/-- LoadingManager.hide(key): deletes the key and hides the overlay only
when the set has become empty. -/
def LoadingManager.hide (lm : LoadingManager) (k : String) : LoadingManager :=
  let s := jsSetDelete lm.loadingStates k
  { lm with
    loadingStates := s
    overlayShown :=
      if s.length = 0 && lm.hasOverlay then false else lm.overlayShown }

/-- LoadingManager.hideAll(): clears the set and hides the overlay. -/
def LoadingManager.hideAll (lm : LoadingManager) : LoadingManager :=
  { lm with
    loadingStates := []
    overlayShown := if lm.hasOverlay then false else lm.overlayShown }

/-- External calls into the LoadingManager. -/
inductive LMOp where
  | show (k : String)
  | hide (k : String)
  deriving Repr, DecidableEq

/-- Dispatch of a single LoadingManager call. -/
def LoadingManager.applyOp (lm : LoadingManager) : LMOp → LoadingManager
  | .show k => lm.show k
  | .hide k => lm.hide k

/-- Run of a sequence of LoadingManager calls. -/
def LoadingManager.run (lm : LoadingManager) (ops : List LMOp) : LoadingManager :=
  ops.foldl LoadingManager.applyOp lm

/-- Initial LoadingManager state at console startup: empty set, overlay
element present and not displayed. -/
def LoadingManager.init : LoadingManager :=
  { loadingStates := [], hasOverlay := true, overlayShown := false }

/-- The visible-iff-nonempty invariant of the LoadingManager. -/
def LoadingManager.inv (lm : LoadingManager) : Prop :=
  lm.hasOverlay = true ∧ (lm.overlayShown = true ↔ lm.loadingStates ≠ [])

theorem jsSetAdd_ne_nil (s : List String) (k : String) : jsSetAdd s k ≠ [] := by
  unfold jsSetAdd
  split
  · intro h
    rename_i hc
    subst h
    simp [List.contains] at hc
  · intro h
    exact absurd (List.append_eq_nil.mp h).2 (by simp)

theorem LoadingManager.inv_applyOp (lm : LoadingManager) (op : LMOp)
    (h : lm.inv) : (lm.applyOp op).inv := by
  obtain ⟨hov, hiff⟩ := h
  rcases op with k | k
  · refine ⟨hov, ?_⟩
    simp only [LoadingManager.applyOp, LoadingManager.show, hov]
    simp [jsSetAdd_ne_nil]
  · refine ⟨hov, ?_⟩
    simp only [LoadingManager.applyOp, LoadingManager.hide, hov]
    by_cases hz : (jsSetDelete lm.loadingStates k).length = 0
    · rw [List.length_eq_zero] at hz
      simp [hz]
    · have hne : jsSetDelete lm.loadingStates k ≠ [] := by
        intro hcon
        exact hz (by simp [hcon])
      have hsrc : lm.loadingStates ≠ [] := by
        intro hcon
        apply hne
        simp [jsSetDelete, hcon]
      simp [hz, hiff, hsrc, hne]

theorem LoadingManager.inv_run (lm : LoadingManager) (ops : List LMOp)
    (h : lm.inv) : (lm.run ops).inv := by
  induction ops generalizing lm with
  | nil => exact h
  | cons op rest ih =>
      exact ih (lm.applyOp op) (lm.inv_applyOp op h)

/-- C2: starting from the empty loading set, after any sequence of
show/hide calls the overlay is displayed iff the set of in-flight keys is
non-empty; in particular a hide of one key that leaves a different key in
the set keeps the overlay displayed. -/
theorem C2_loading_overlay_iff_inflight (ops : List LMOp) :
    ((LoadingManager.init.run ops).overlayShown = true ↔
      (LoadingManager.init.run ops).loadingStates ≠ []) ∧
    (∀ k, ((LoadingManager.init.run ops).hide k).loadingStates ≠ [] →
      ((LoadingManager.init.run ops).hide k).overlayShown = true) := by
  have hinit : LoadingManager.init.inv := by
    constructor
    · rfl
    · simp [LoadingManager.init]
  have h := LoadingManager.inv_run LoadingManager.init ops hinit
  refine ⟨h.2, ?_⟩
  intro k hk
  have h' : (LoadingManager.init.run (ops ++ [LMOp.hide k])).inv :=
    LoadingManager.inv_run LoadingManager.init (ops ++ [LMOp.hide k]) hinit
  have hrw : LoadingManager.init.run (ops ++ [LMOp.hide k]) =
      (LoadingManager.init.run ops).hide k := by
    simp [LoadingManager.run, List.foldl_append, LoadingManager.applyOp]
  rw [hrw] at h'
  exact h'.2.mpr hk

/-! ## Utils.formatPercentage (app.js lines 735-739) -/

/-- Rounding performed by Number.prototype.toFixed(1) on a real value:
the integer number of tenths nearest to the input, ties away from zero
(the ECMAScript algorithm takes the absolute value, rounds half up, and
re-attaches the sign). -/
def jsToFixed1Int (q : ℚ) : ℤ :=
  if 0 ≤ q then ⌊10 * q + 1/2⌋ else -⌊10 * (-q) + 1/2⌋

/-- Decimal rendering of a signed number of tenths with exactly one
fractional digit, as produced by toFixed(1). -/
def renderTenths (n : ℤ) : String :=
  (if n < 0 then "-" else "") ++
    toString (n.natAbs / 10) ++ "." ++ toString (n.natAbs % 10)

/-- Utils.formatPercentage with the default decimals = 1: null/undefined
input yields the string 0%, a numeric input is rendered via toFixed(1)
followed by a percent sign. -/
def Utils.formatPercentage : Option ℚ → String
  | none => "0%"
  | some q => renderTenths (jsToFixed1Int q) ++ "%"

theorem jsToFixed1Int_close (q : ℚ) :
    |q - (jsToFixed1Int q : ℚ) / 10| ≤ 1 / 20 := by
  unfold jsToFixed1Int
  split
  · set n : ℤ := ⌊10 * q + 1/2⌋ with hn
    have h1 : (n : ℚ) ≤ 10 * q + 1/2 := Int.floor_le _
    have h2 : 10 * q + 1/2 < (n : ℚ) + 1 := Int.lt_floor_add_one _
    rw [abs_le]
    constructor <;> [linarith; linarith]
  · set m : ℤ := ⌊10 * (-q) + 1/2⌋ with hm
    have h1 : (m : ℚ) ≤ 10 * (-q) + 1/2 := Int.floor_le _
    have h2 : 10 * (-q) + 1/2 < (m : ℚ) + 1 := Int.lt_floor_add_one _
    rw [abs_le]
    push_cast
    constructor <;> [linarith; linarith]

/-- C6: formatPercentage renders a missing value as 0% (so a dashboard
with total_searches = 0 and an absent ctr shows 0% without any division),
and renders every present number with exactly one decimal of precision
followed by a percent sign: the displayed number of tenths is within one
twentieth of the true value. -/
theorem C6_format_percentage_one_decimal :
    Utils.formatPercentage none = "0%" ∧
    ∀ q : ℚ, ∃ n : ℤ,
      Utils.formatPercentage (some q) = renderTenths n ++ "%" ∧
      |q - (n : ℚ) / 10| ≤ 1 / 20 := by
  refine ⟨rfl, ?_⟩
  intro q
  exact ⟨jsToFixed1Int q, rfl, jsToFixed1Int_close q⟩

/-! ## Assoc-list map lemmas -/

theorem mem_jsMapDelete {β : Type} {m : List (String × β)} {k : String}
    {p : String × β} : p ∈ jsMapDelete m k ↔ p ∈ m ∧ p.1 ≠ k := by
  simp [jsMapDelete, List.mem_filter, bne_iff_ne]

theorem jsMapGet_set_self {β : Type} (m : List (String × β)) (k : String)
    (v : β) : jsMapGet (jsMapSet m k v) k = some v := by
  unfold jsMapSet
  split
  · rename_i h
    unfold jsMapGet
    induction m with
    | nil => simp at h
    | cons p rest ih =>
        by_cases hp : p.1 == k
        · simp only [List.map_cons, if_pos hp]
          rw [List.find?_cons_of_pos _ (by simp)]
          rfl
        · simp only [List.map_cons, if_neg hp]
          rw [List.find?_cons_of_neg _ (by simpa using hp)]
          apply ih
          simp only [List.any_cons, Bool.or_eq_true] at h
          rcases h with h | h
          · exact absurd h hp
          · exact h
  · rename_i h
    unfold jsMapGet
    rw [List.find?_append]
    have hnone : m.find? (fun p => p.1 == k) = none := by
      rw [List.find?_eq_none]
      intro x hx hpx
      exact h (List.any_eq_true.mpr ⟨x, hx, hpx⟩)
    rw [hnone]
    rw [List.find?_cons_of_pos _ (by simp)]
    rfl

theorem jsMapGet_delete_self {β : Type} (m : List (String × β)) (k : String) :
    jsMapGet (jsMapDelete m k) k = none := by
  unfold jsMapGet
  have hnone : (jsMapDelete m k).find? (fun p => p.1 == k) = none := by
    rw [List.find?_eq_none]
    intro x hx hpx
    have hne := (mem_jsMapDelete.mp hx).2
    exact hne (by simpa using hpx)
  rw [hnone]
  rfl

theorem jsMapGet_some_mem {β : Type} {m : List (String × β)} {k : String}
    {v : β} (h : jsMapGet m k = some v) : ∃ p, p ∈ m ∧ p.1 = k ∧ p.2 = v := by
  unfold jsMapGet at h
  cases hf : List.find? (fun p => p.1 == k) m with
  | none => rw [hf] at h; simp at h
  | some p =>
      rw [hf] at h
      refine ⟨p, List.mem_of_find?_eq_some hf, ?_, ?_⟩
      · have hpk := List.find?_some hf
        simpa using hpk
      · simpa using h

theorem jsMapDelete_of_get_none {β : Type} {m : List (String × β)}
    {k : String} (h : jsMapGet m k = none) : jsMapDelete m k = m := by
  unfold jsMapGet at h
  cases hf : List.find? (fun p => p.1 == k) m with
  | some p => rw [hf] at h; simp at h
  | none =>
      rw [List.find?_eq_none] at hf
      unfold jsMapDelete
      apply List.filter_eq_self.mpr
      intro p hp
      have := hf p hp
      simpa using this

theorem filter_key_jsMapSet_delete {β : Type} (m : List (String × β))
    (k : String) (v : β) :
    (jsMapSet (jsMapDelete m k) k v).filter (fun p => p.1 == k) = [(k, v)] := by
  have hany : (jsMapDelete m k).any (fun p => p.1 == k) = false := by
    rw [List.any_eq_false]
    intro x hx hpx
    exact (mem_jsMapDelete.mp hx).2 (by simpa using hpx)
  unfold jsMapSet
  rw [if_neg (by simp [hany])]
  rw [List.filter_append]
  have h1 : (jsMapDelete m k).filter (fun p => p.1 == k) = [] := by
    rw [List.filter_eq_nil]
    intro x hx hpx
    exact (mem_jsMapDelete.mp hx).2 (by simpa using hpx)
  rw [h1]
  simp [List.filter]

theorem mem_jsMapSet_delete {β : Type} {m : List (String × β)} {k : String}
    {v : β} {p : String × β} (hp : p ∈ jsMapSet (jsMapDelete m k) k v) :
    p = (k, v) ∨ (p ∈ m ∧ p.1 ≠ k) := by
  have hany : (jsMapDelete m k).any (fun q => q.1 == k) = false := by
    rw [List.any_eq_false]
    intro x hx hpx
    exact (mem_jsMapDelete.mp hx).2 (by simpa using hpx)
  unfold jsMapSet at hp
  rw [if_neg (by simp [hany])] at hp
  rcases List.mem_append.mp hp with h | h
  · exact Or.inr (mem_jsMapDelete.mp h)
  · simp at h
    exact Or.inl (by cases p; simp_all)

/-! ## Timer environment and AutoRefresh (charts.js lines 867-903) -/

/-- Browser timer environment: a fresh-id allocator for setInterval and
the set of currently active interval timers (id, period). Callbacks are
opaque and not tracked; a timer fires once per period while active. -/
structure TimerEnv where
  nextId : Nat
  active : List (Nat × Nat)
  deriving Repr, DecidableEq

/-- setInterval: allocates a fresh timer id and activates a periodic
timer with the given period. -/
def TimerEnv.setInterval (env : TimerEnv) (interval : Nat) : Nat × TimerEnv :=
  (env.nextId,
   { nextId := env.nextId + 1, active := env.active ++ [(env.nextId, interval)] })

/-- clearInterval: deactivates the timer with the given id. -/
def TimerEnv.clearInterval (env : TimerEnv) (id : Nat) : TimerEnv :=
  { env with active := env.active.filter (fun p => p.1 != id) }

/-- AutoRefresh state: the Map from task key to interval id, plus the
enabled flag initialized from CONFIG.AUTO_REFRESH.enabled. -/
structure AutoRefresh where
  intervals : List (String × Nat)
  enabled : Bool
  deriving Repr, DecidableEq

/-- AutoRefresh.stop(key): looks up the registered interval id and, when
it is truthy, clears that timer and deletes the registry entry. -/
def AutoRefresh.stop (ar : AutoRefresh) (env : TimerEnv) (key : String) :
    AutoRefresh × TimerEnv :=
  match jsMapGet ar.intervals key with
  | some id =>
      if id ≠ 0 then
        ({ ar with intervals := jsMapDelete ar.intervals key },
         env.clearInterval id)
      else (ar, env)
  | none => (ar, env)

/-- AutoRefresh.start(key, callback, interval): returns immediately when
disabled; otherwise stops any existing timer for the key, starts a fresh
interval timer, and registers its id under the key. -/
def AutoRefresh.start (ar : AutoRefresh) (env : TimerEnv) (key : String)
    (interval : Nat) : AutoRefresh × TimerEnv :=
  if ar.enabled = false then (ar, env)
  else
    let s := ar.stop env key
    let r := s.2.setInterval interval
    ({ s.1 with intervals := jsMapSet s.1.intervals key r.1 }, r.2)

/-- AutoRefresh.stopAll(): clears every registered timer and empties the
registry. -/
def AutoRefresh.stopAll (ar : AutoRefresh) (env : TimerEnv) :
    AutoRefresh × TimerEnv :=
  let env1 := ar.intervals.foldl (fun e p => e.clearInterval p.2) env
  ({ ar with intervals := [] }, env1)

/-- Well-formedness of an AutoRefresh registry against the timer
environment: registry keys are distinct, registered ids are nonzero,
below the allocator and distinct, active timer ids are distinct and below
the allocator, and the allocator never hands out id 0. -/
structure ARWf (ar : AutoRefresh) (env : TimerEnv) : Prop where
  keysNodup : (ar.intervals.map Prod.fst).Nodup
  idsPos : ∀ p ∈ ar.intervals, p.2 ≠ 0
  idsLt : ∀ p ∈ ar.intervals, p.2 < env.nextId
  idsNodup : (ar.intervals.map Prod.snd).Nodup
  activeNodup : (env.active.map Prod.fst).Nodup
  activeLt : ∀ p ∈ env.active, p.1 < env.nextId
  nextPos : 1 ≤ env.nextId

theorem jsMapDelete_any_eq_false {β : Type} (m : List (String × β))
    (k : String) : (jsMapDelete m k).any (fun p => p.1 == k) = false := by
  rw [List.any_eq_false]
  intro x hx hpx
  exact (mem_jsMapDelete.mp hx).2 (by simpa using hpx)

theorem jsMapSet_delete_eq_append {β : Type} (m : List (String × β))
    (k : String) (v : β) :
    jsMapSet (jsMapDelete m k) k v = jsMapDelete m k ++ [(k, v)] := by
  unfold jsMapSet
  rw [if_neg (by simp [jsMapDelete_any_eq_false])]

theorem keys_jsMapDelete_sublist {β : Type} (m : List (String × β))
    (k : String) :
    ((jsMapDelete m k).map Prod.fst).Sublist (m.map Prod.fst) :=
  (List.filter_sublist m).map Prod.fst

theorem vals_jsMapDelete_sublist {β : Type} (m : List (String × β))
    (k : String) :
    ((jsMapDelete m k).map Prod.snd).Sublist (m.map Prod.snd) :=
  (List.filter_sublist m).map Prod.snd

theorem not_mem_keys_jsMapDelete {β : Type} (m : List (String × β))
    (k : String) : k ∉ (jsMapDelete m k).map Prod.fst := by
  intro hk
  rcases List.mem_map.mp hk with ⟨p, hp, hpk⟩
  exact (mem_jsMapDelete.mp hp).2 hpk

theorem AutoRefresh.stop_char (ar : AutoRefresh) (env : TimerEnv) (k : String)
    (hwf : ARWf ar env) :
    (ar.stop env k).1 = { ar with intervals := jsMapDelete ar.intervals k } ∧
    (ar.stop env k).2 = (match jsMapGet ar.intervals k with
      | some id => env.clearInterval id
      | none => env) := by
  unfold AutoRefresh.stop
  cases hg : jsMapGet ar.intervals k with
  | none =>
      constructor
      · simp [jsMapDelete_of_get_none hg]
      · rfl
  | some id =>
      obtain ⟨p, hp, _, hv⟩ := jsMapGet_some_mem hg
      have hid : id ≠ 0 := hv ▸ hwf.idsPos p hp
      simp [hid]

theorem AutoRefresh.start_char (ar : AutoRefresh) (env : TimerEnv)
    (k : String) (i : Nat) (hwf : ARWf ar env) (hen : ar.enabled = true) :
    (ar.start env k i).1.intervals =
      jsMapDelete ar.intervals k ++ [(k, env.nextId)] ∧
    (ar.start env k i).1.enabled = true ∧
    (ar.start env k i).2.nextId = env.nextId + 1 ∧
    (ar.start env k i).2.active =
      (match jsMapGet ar.intervals k with
        | some oldId => env.active.filter (fun p => p.1 != oldId)
        | none => env.active) ++ [(env.nextId, i)] := by
  obtain ⟨h1, h2⟩ := ar.stop_char env k hwf
  unfold AutoRefresh.start
  rw [if_neg (by simp [hen])]
  have hnext : (ar.stop env k).2.nextId = env.nextId := by
    rw [h2]
    cases jsMapGet ar.intervals k with
    | none => rfl
    | some id => rfl
  refine ⟨?_, ?_, ?_, ?_⟩
  · simp only [TimerEnv.setInterval, h1, hnext]
    exact jsMapSet_delete_eq_append _ _ _
  · simp only [TimerEnv.setInterval, h1, hen]
  · simp only [TimerEnv.setInterval, hnext]
  · simp only [TimerEnv.setInterval, h2, hnext]
    cases jsMapGet ar.intervals k with
    | none => rfl
    | some id => rfl

theorem AutoRefresh.start_wf (ar : AutoRefresh) (env : TimerEnv) (k : String)
    (i : Nat) (hwf : ARWf ar env) (hen : ar.enabled = true) :
    ARWf (ar.start env k i).1 (ar.start env k i).2 := by
  obtain ⟨hint, -, hnext, hact⟩ := ar.start_char env k i hwf hen
  have hAdef : ∃ A : List (Nat × Nat),
      (ar.start env k i).2.active = A ++ [(env.nextId, i)] ∧
      (∀ q ∈ A, q ∈ env.active) ∧
      (A.map Prod.fst).Sublist (env.active.map Prod.fst) := by
    cases hg : jsMapGet ar.intervals k with
    | none =>
        refine ⟨env.active, ?_, fun q hq => hq, List.Sublist.refl _⟩
        rw [hact, hg]
    | some oldId =>
        refine ⟨env.active.filter (fun p => p.1 != oldId), ?_, ?_, ?_⟩
        · rw [hact, hg]
        · intro q hq
          exact (List.mem_filter.mp hq).1
        · exact (List.filter_sublist _).map Prod.fst
  obtain ⟨A, hAeq, hAmem, hAsub⟩ := hAdef
  have hnp := hwf.nextPos
  refine ⟨?_, ?_, ?_, ?_, ?_, ?_, ?_⟩
  · rw [hint, List.map_append, List.nodup_append]
    refine ⟨List.Nodup.sublist (keys_jsMapDelete_sublist _ _) hwf.keysNodup,
      by simp, ?_⟩
    intro a ha hb
    simp only [List.map_cons, List.map_nil, List.mem_singleton] at hb
    subst hb
    exact not_mem_keys_jsMapDelete _ _ ha
  · intro p hp
    rw [hint] at hp
    rcases List.mem_append.mp hp with h | h
    · exact hwf.idsPos p (mem_jsMapDelete.mp h).1
    · simp only [List.mem_singleton] at h
      subst h
      simp only []
      omega
  · intro p hp
    rw [hnext]
    rw [hint] at hp
    rcases List.mem_append.mp hp with h | h
    · have := hwf.idsLt p (mem_jsMapDelete.mp h).1
      omega
    · simp only [List.mem_singleton] at h
      subst h
      simp only []
      omega
  · rw [hint, List.map_append, List.nodup_append]
    refine ⟨List.Nodup.sublist (vals_jsMapDelete_sublist _ _) hwf.idsNodup,
      by simp, ?_⟩
    intro a ha hb
    simp only [List.map_cons, List.map_nil, List.mem_singleton] at hb
    subst hb
    rcases List.mem_map.mp ha with ⟨p, hp, hpa⟩
    have hlt := hwf.idsLt p (mem_jsMapDelete.mp hp).1
    omega
  · rw [hAeq, List.map_append, List.nodup_append]
    refine ⟨List.Nodup.sublist hAsub hwf.activeNodup, by simp, ?_⟩
    intro a ha hb
    simp only [List.map_cons, List.map_nil, List.mem_singleton] at hb
    subst hb
    rcases List.mem_map.mp ha with ⟨q, hq, hqa⟩
    have := hwf.activeLt q (hAmem q hq)
    omega
  · intro q hq
    rw [hnext]
    rw [hAeq] at hq
    rcases List.mem_append.mp hq with h | h
    · have := hwf.activeLt q (hAmem q h)
      omega
    · simp only [List.mem_singleton] at h
      subst h
      simp only []
      omega
  · rw [hnext]
    omega

/-- C1: starting a key cancels and replaces the prior timer. After
AutoRefresh.start the registry holds exactly one entry for the key (and
per-key uniqueness holds for all keys), the previously registered timer
for the key is no longer active, and after starting the same key twice
with different intervals exactly one registered timer for the key is
active and it carries the latest interval. -/
theorem C1_auto_refresh_single_timer_per_key (ar : AutoRefresh)
    (env : TimerEnv) (k : String) (i i' : Nat) (hwf : ARWf ar env)
    (hen : ar.enabled = true) :
    ((ar.start env k i).1.intervals.filter (fun p => p.1 == k) =
      [(k, env.nextId)]) ∧
    (((ar.start env k i).1.intervals.map Prod.fst).Nodup) ∧
    (∀ oldId, jsMapGet ar.intervals k = some oldId →
      ∀ q ∈ (ar.start env k i).2.active, q.1 ≠ oldId) ∧
    (∃ id2,
      jsMapGet ((ar.start env k i).1.start (ar.start env k i).2 k i').1.intervals
          k = some id2 ∧
      ((ar.start env k i).1.start (ar.start env k i).2 k i').2.active.filter
          (fun q => q.1 == id2) = [(id2, i')] ∧
      ((ar.start env k i).1.start (ar.start env k i).2 k i').1.intervals.filter
          (fun p => p.1 == k) = [(k, id2)]) := by
  obtain ⟨hint, hen1, hnext, hact⟩ := ar.start_char env k i hwf hen
  have hwf1 := ar.start_wf env k i hwf hen
  refine ⟨?_, ?_, ?_, ?_⟩
  · rw [hint, ← jsMapSet_delete_eq_append]
    exact filter_key_jsMapSet_delete _ _ _
  · exact hwf1.keysNodup
  · intro oldId hold q hq
    rw [hact, hold] at hq
    have holdLt : oldId < env.nextId := by
      obtain ⟨p, hp, _, hv⟩ := jsMapGet_some_mem hold
      exact hv ▸ hwf.idsLt p hp
    rcases List.mem_append.mp hq with h | h
    · have := (List.mem_filter.mp h).2
      simpa using this
    · simp only [List.mem_singleton] at h
      subst h
      simp only []
      omega
  · obtain ⟨hint2, -, -, hact2⟩ :=
      (ar.start env k i).1.start_char (ar.start env k i).2 k i' hwf1 hen1
    have hget1 : jsMapGet (ar.start env k i).1.intervals k = some env.nextId := by
      rw [hint, ← jsMapSet_delete_eq_append]
      exact jsMapGet_set_self _ _ _
    refine ⟨(ar.start env k i).2.nextId, ?_, ?_, ?_⟩
    · rw [hint2, ← jsMapSet_delete_eq_append]
      exact jsMapGet_set_self _ _ _
    · rw [hact2, hget1, List.filter_append]
      have hB : ((ar.start env k i).2.active.filter
          (fun p => p.1 != env.nextId)).filter
            (fun q => q.1 == (ar.start env k i).2.nextId) = [] := by
        rw [List.filter_eq_nil_iff]
        intro q hq
        have hqa : q ∈ (ar.start env k i).2.active := (List.mem_filter.mp hq).1
        have := hwf1.activeLt q hqa
        simp only [beq_iff_eq]
        omega
      rw [hB]
      simp [List.filter]
    · rw [hint2, ← jsMapSet_delete_eq_append]
      exact filter_key_jsMapSet_delete _ _ _

/-- Witness for C1 at a concrete input: the timer for key tickets is
started twice, first with interval 30000 then 10000; afterwards exactly
one registered timer is active and it has period 10000. -/
theorem C1_witness :
    (((AutoRefresh.mk [] true).start ⟨1, []⟩ "tickets" 30000).1.intervals.filter
      (fun p => p.1 == "tickets") = [("tickets", 1)]) ∧
    ((((AutoRefresh.mk [] true).start ⟨1, []⟩ "tickets" 30000).1.intervals.map
      Prod.fst).Nodup) ∧
    (∀ oldId, jsMapGet (AutoRefresh.mk [] true).intervals "tickets" = some oldId →
      ∀ q ∈ ((AutoRefresh.mk [] true).start ⟨1, []⟩ "tickets" 30000).2.active,
        q.1 ≠ oldId) ∧
    (∃ id2,
      jsMapGet (((AutoRefresh.mk [] true).start ⟨1, []⟩ "tickets" 30000).1.start
          ((AutoRefresh.mk [] true).start ⟨1, []⟩ "tickets" 30000).2 "tickets"
          10000).1.intervals "tickets" = some id2 ∧
      (((AutoRefresh.mk [] true).start ⟨1, []⟩ "tickets" 30000).1.start
          ((AutoRefresh.mk [] true).start ⟨1, []⟩ "tickets" 30000).2 "tickets"
          10000).2.active.filter (fun q => q.1 == id2) = [(id2, 10000)] ∧
      (((AutoRefresh.mk [] true).start ⟨1, []⟩ "tickets" 30000).1.start
          ((AutoRefresh.mk [] true).start ⟨1, []⟩ "tickets" 30000).2 "tickets"
          10000).1.intervals.filter (fun p => p.1 == "tickets") =
        [("tickets", id2)]) :=
  C1_auto_refresh_single_timer_per_key (AutoRefresh.mk [] true) ⟨1, []⟩
    "tickets" 30000 10000 (by constructor <;> simp) rfl

/-! ## Utils.debounce (app.js lines 767-778) -/

/-- State of one wrapper returned by Utils.debounce: the pending timeout
(absolute fire instant and the captured call arguments) and the log of
invocations of the wrapped function, in order, as (instant, arguments). -/
structure DebounceState (α : Type) where
  pending : Option (Nat × α)
  fired : List (Nat × α)
  deriving Repr, DecidableEq

/-- Timer delivery before an event at instant t: a pending timeout whose
fire instant has already arrived runs first (its callback clears the
spent handle, a no-op, and invokes func with the captured arguments). -/
def DebounceState.deliverUpTo {α : Type} (s : DebounceState α) (t : Nat) :
    DebounceState α :=
  match s.pending with
  | some pa =>
      if pa.1 ≤ t then { pending := none, fired := s.fired ++ [pa] }
      else s
  | none => s

/-- Call of the debounced wrapper at instant t with arguments a: any
timeout already due runs first, then the wrapper body executes
clearTimeout(timeout) and schedules func(a) at t + wait. -/
def DebounceState.call {α : Type} (s : DebounceState α) (w t : Nat) (a : α) :
    DebounceState α :=
  let s1 := s.deliverUpTo t
  { pending := some (t + w, a), fired := s1.fired }

/-- End of a run: the burst is over and the remaining pending timeout, if
any, fires. -/
def DebounceState.finish {α : Type} (s : DebounceState α) : List (Nat × α) :=
  match s.pending with
  | some p => s.fired ++ [p]
  | none => s.fired

/-- Run of a finite sequence of wrapper calls from the fresh closure
state, waiting out the final timeout at the end: the resulting list of
invocations of the wrapped function. -/
def debounceRun {α : Type} (w : Nat) (calls : List (Nat × α)) :
    List (Nat × α) :=
  (calls.foldl (fun (s : DebounceState α) c => s.call w c.1 c.2)
    (⟨none, []⟩ : DebounceState α)).finish

/-- Burst condition of the claim: each consecutive gap is less than the
debounce delay. -/
def IsBurst {α : Type} (w : Nat) (calls : List (Nat × α)) : Prop :=
  List.Chain' (fun c c' => c'.1 < c.1 + w) calls

theorem debounce_foldl_no_fire {α : Type} (w : Nat) (calls : List (Nat × α))
    (last : Nat × α) (hlast : calls.getLast? = some last) :
    ∀ (s : DebounceState α) (pt : Nat) (pa : α),
      s.pending = some (pt, pa) →
      (∀ c ∈ calls.head?, c.1 < pt) →
      List.Chain' (fun c c' => c'.1 < c.1 + w) calls →
      calls.foldl (fun (s : DebounceState α) c => s.call w c.1 c.2) s =
        { pending := some (last.1 + w, last.2), fired := s.fired } := by
  induction calls generalizing last with
  | nil => simp at hlast
  | cons c rest ih =>
      intro s pt pa hp hfirst hchain
      have hclt : c.1 < pt := hfirst c (by simp)
      have hstep : s.call w c.1 c.2 =
          { pending := some (c.1 + w, c.2), fired := s.fired } := by
        unfold DebounceState.call DebounceState.deliverUpTo
        rw [hp]
        simp only []
        rw [if_neg (by omega)]
      cases hrest : rest with
      | nil =>
          subst hrest
          simp only [List.getLast?_singleton, Option.some.injEq] at hlast
          subst hlast
          simp only [List.foldl_cons, List.foldl_nil, hstep]
      | cons r rest2 =>
          have hlast2 : rest.getLast? = some last := by
            rw [hrest] at hlast ⊢
            rw [← hlast]
            exact (List.getLast?_cons_cons ..).symm
          have hh : ∀ c2 ∈ rest.head?, c2.1 < c.1 + w := by
            intro c2 hc2
            rw [hrest] at hc2
            simp only [List.head?_cons, Option.mem_def, Option.some.injEq] at hc2
            subst hc2
            exact (List.chain'_cons'.mp hchain).1 r (by rw [hrest]; simp)
          have hc : List.Chain' (fun c c' => c'.1 < c.1 + w) rest :=
            (List.chain'_cons'.mp hchain).2
          rw [List.foldl_cons, hstep, ← hrest]
          rw [ih last hlast2 { pending := some (c.1 + w, c.2), fired := s.fired }
            (c.1 + w) c.2 rfl hh hc]

/-- C3: for every wrapped function, delay and burst of wrapper calls in
which each consecutive gap is smaller than the delay, the wrapped
function is invoked exactly once, at delay w after the last call, with
the last call's arguments. -/
theorem C3_debounce_trailing_edge {α : Type} (w : Nat)
    (calls : List (Nat × α)) (last : Nat × α)
    (hlast : calls.getLast? = some last) (hburst : IsBurst w calls) :
    debounceRun w calls = [(last.1 + w, last.2)] := by
  cases calls with
  | nil => simp at hlast
  | cons c rest =>
      unfold debounceRun
      have hstep : (DebounceState.call ⟨none, []⟩ w c.1 c.2 : DebounceState α) =
          { pending := some (c.1 + w, c.2), fired := [] } := by
        unfold DebounceState.call DebounceState.deliverUpTo
        simp
      cases hrest : rest with
      | nil =>
          subst hrest
          simp only [List.getLast?_singleton, Option.some.injEq] at hlast
          subst hlast
          simp only [List.foldl_cons, List.foldl_nil, hstep]
          rfl
      | cons r rest2 =>
          have hlast2 : rest.getLast? = some last := by
            rw [hrest] at hlast ⊢
            rw [← hlast]
            exact (List.getLast?_cons_cons ..).symm
          have hh : ∀ c2 ∈ rest.head?, c2.1 < c.1 + w := by
            intro c2 hc2
            rw [hrest] at hc2
            simp only [List.head?_cons, Option.mem_def, Option.some.injEq] at hc2
            subst hc2
            exact (List.chain'_cons'.mp hburst).1 r (by rw [hrest]; simp)
          have hc : List.Chain' (fun c c' => c'.1 < c.1 + w) rest :=
            (List.chain'_cons'.mp hburst).2
          rw [List.foldl_cons, hstep, ← hrest]
          rw [debounce_foldl_no_fire w rest last hlast2
            { pending := some (c.1 + w, c.2), fired := [] } (c.1 + w) c.2 rfl
            hh hc]
          rfl

/-- Witness for C3: three rapid edits at instants 0, 200 and 300 with a
500 ms debounce collapse to a single query at instant 800 carrying the
last edit. -/
theorem C3_witness :
    debounceRun 500 [(0, "a"), (200, "ab"), (300, "abc")] = [(800, "abc")] :=
  C3_debounce_trailing_edge 500 [(0, "a"), (200, "ab"), (300, "abc")]
    (300, "abc") (by decide)
    (by unfold IsBurst; simp [List.chain'_cons])

/-! ## ChartManager (charts.js lines 2-102) -/

/-- Chart.js environment: an identity allocator for chart objects and the
set of chart objects whose render context is live (not destroyed). -/
structure ChartEnv where
  nextChart : Nat
  live : List Nat
  deriving Repr, DecidableEq

/-- DOM canvases present in the document. -/
structure DomEnv where
  canvases : List String
  deriving Repr, DecidableEq

/-- ChartManager state: the Map from canvas id to the chart object
registered for it. -/
structure ChartManager where
  charts : List (String × Nat)
  deriving Repr, DecidableEq

/-- new Chart(ctx, config): allocates a live chart object. -/
def ChartEnv.newChart (env : ChartEnv) : Nat × ChartEnv :=
  (env.nextChart,
   { nextChart := env.nextChart + 1, live := env.live ++ [env.nextChart] })

/-- chart.destroy(): releases the chart object's render context. -/
def ChartEnv.destroy (env : ChartEnv) (c : Nat) : ChartEnv :=
  { env with live := env.live.filter (fun x => x != c) }

/-- ChartManager.createChart: returns null without touching the registry
when the canvas is absent from the document; otherwise destroys the chart
already registered for the canvas (if any), creates the new chart and
registers it under the canvas id. -/
def ChartManager.createChart (cm : ChartManager) (env : ChartEnv)
    (dom : DomEnv) (canvasId : String) : Option Nat × ChartManager × ChartEnv :=
  if canvasId ∉ dom.canvases then (none, cm, env)
  else
    let env1 := match jsMapGet cm.charts canvasId with
      | some c => env.destroy c
      | none => env
    let r := env1.newChart
    (some r.1, { charts := jsMapSet cm.charts canvasId r.1 }, r.2)

/-- ChartManager.destroyAllCharts: destroys every registered chart, then
clears the registry. -/
def ChartManager.destroyAllCharts (cm : ChartManager) (env : ChartEnv) :
    ChartManager × ChartEnv :=
  let env1 := cm.charts.foldl (fun e p => e.destroy p.2) env
  ({ charts := [] }, env1)

/-- Well-formedness of the chart registry against the chart environment:
canvas keys are distinct and registered chart identities are below the
allocator. -/
structure CMWf (cm : ChartManager) (env : ChartEnv) : Prop where
  keysNodup : (cm.charts.map Prod.fst).Nodup
  chartsLt : ∀ p ∈ cm.charts, p.2 < env.nextChart

theorem keys_jsMapSet_replace {β : Type} (m : List (String × β)) (k : String)
    (v : β) (h : m.any (fun p => p.1 == k) = true) :
    (jsMapSet m k v).map Prod.fst = m.map Prod.fst := by
  unfold jsMapSet
  rw [if_pos h, List.map_map]
  apply List.map_congr_left
  intro p hp
  by_cases hpk : p.1 == k
  · simp only [Function.comp_apply, if_pos hpk]
    exact (beq_iff_eq.mp hpk).symm
  · simp only [Function.comp_apply, if_neg hpk]

theorem mem_jsMapSet {β : Type} {m : List (String × β)} {k : String} {v : β}
    {p : String × β} (hp : p ∈ jsMapSet m k v) : p = (k, v) ∨ p ∈ m := by
  unfold jsMapSet at hp
  split at hp
  · rcases List.mem_map.mp hp with ⟨q, hq, himg⟩
    by_cases hqk : q.1 == k
    · rw [if_pos hqk] at himg
      exact Or.inl himg.symm
    · rw [if_neg hqk] at himg
      exact Or.inr (himg ▸ hq)
  · rcases List.mem_append.mp hp with h | h
    · exact Or.inr h
    · simp only [List.mem_singleton] at h
      exact Or.inl h

theorem keysNodup_jsMapSet {β : Type} (m : List (String × β)) (k : String)
    (v : β) (h : (m.map Prod.fst).Nodup) :
    ((jsMapSet m k v).map Prod.fst).Nodup := by
  cases hany : m.any (fun p => p.1 == k) with
  | true =>
      rw [keys_jsMapSet_replace m k v hany]
      exact h
  | false =>
      unfold jsMapSet
      rw [if_neg (by simp [hany])]
      rw [List.map_append, List.nodup_append]
      refine ⟨h, by simp, ?_⟩
      intro a ha hb
      simp only [List.map_cons, List.map_nil, List.mem_singleton] at hb
      subst hb
      rw [List.any_eq_false] at hany
      rcases List.mem_map.mp ha with ⟨p, hp, hpa⟩
      exact absurd (by simp [hpa]) (hany p hp)

theorem mem_live_foldl_destroy (l : List (String × Nat)) :
    ∀ (env : ChartEnv) (x : Nat),
      x ∈ (l.foldl (fun e p => e.destroy p.2) env).live →
      x ∈ env.live ∧ ∀ p ∈ l, x ≠ p.2 := by
  induction l with
  | nil =>
      intro env x hx
      exact ⟨hx, by simp⟩
  | cons p rest ih =>
      intro env x hx
      rw [List.foldl_cons] at hx
      obtain ⟨hmem, hall⟩ := ih (env.destroy p.2) x hx
      have hmem2 := List.mem_filter.mp hmem
      refine ⟨hmem2.1, ?_⟩
      intro q hq
      rcases List.mem_cons.mp hq with h | h
      · subst h
        simpa using hmem2.2
      · exact hall q h

theorem foldl_destroy_nextChart (l : List (String × Nat)) :
    ∀ env : ChartEnv,
      (l.foldl (fun e p => e.destroy p.2) env).nextChart = env.nextChart := by
  induction l with
  | nil => intro env; rfl
  | cons p rest ih => intro env; rw [List.foldl_cons]; exact ih _

/-- C4: when the canvas exists, createChart destroys the previously
registered chart for that canvas before creating and registering the new
one, the registry keeps at most one chart per canvas (distinct keys), and
destroyAllCharts destroys every registered chart and leaves the registry
empty. -/
theorem C4_chart_registry_unique_and_teardown (cm : ChartManager)
    (env : ChartEnv) (dom : DomEnv) (canvasId : String)
    (hwf : CMWf cm env) (hdom : canvasId ∈ dom.canvases) :
    (∃ newId,
      (cm.createChart env dom canvasId).1 = some newId ∧
      jsMapGet (cm.createChart env dom canvasId).2.1.charts canvasId =
        some newId ∧
      newId ∈ (cm.createChart env dom canvasId).2.2.live) ∧
    (∀ old, jsMapGet cm.charts canvasId = some old →
      old ∉ (cm.createChart env dom canvasId).2.2.live) ∧
    CMWf (cm.createChart env dom canvasId).2.1
      (cm.createChart env dom canvasId).2.2 ∧
    ((cm.destroyAllCharts env).1.charts = [] ∧
      ∀ p ∈ cm.charts, p.2 ∉ (cm.destroyAllCharts env).2.live) := by
  have hcreate : ∃ env1 : ChartEnv,
      (∀ x ∈ env1.live, x ∈ env.live) ∧
      (∀ old, jsMapGet cm.charts canvasId = some old → old ∉ env1.live) ∧
      cm.createChart env dom canvasId =
        (some env.nextChart,
         { charts := jsMapSet cm.charts canvasId env.nextChart },
         { nextChart := env.nextChart + 1,
           live := env1.live ++ [env.nextChart] }) := by
    cases hg : jsMapGet cm.charts canvasId with
    | none =>
        refine ⟨env, fun x hx => hx, ?_, ?_⟩
        · intro old hold
          simp at hold
        · unfold ChartManager.createChart
          rw [if_neg (not_not_intro hdom), hg]
          rfl
    | some c =>
        refine ⟨env.destroy c, fun x hx => (List.mem_filter.mp hx).1, ?_, ?_⟩
        · intro old hold
          have hco : c = old := by injection hold
          subst hco
          intro hmem
          have := (List.mem_filter.mp hmem).2
          simp at this
        · unfold ChartManager.createChart
          rw [if_neg (not_not_intro hdom), hg]
          rfl
  obtain ⟨env1, hsub, holdgone, heq⟩ := hcreate
  refine ⟨?_, ?_, ?_, ?_, ?_⟩
  · refine ⟨env.nextChart, ?_, ?_, ?_⟩
    · rw [heq]
    · rw [heq]
      exact jsMapGet_set_self _ _ _
    · rw [heq]
      simp
  · intro old hold
    rw [heq]
    simp only []
    intro hmem
    rcases List.mem_append.mp hmem with h | h
    · exact holdgone old hold h
    · simp only [List.mem_singleton] at h
      obtain ⟨p, hp, _, hv⟩ := jsMapGet_some_mem hold
      have := hwf.chartsLt p hp
      omega
  · rw [heq]
    constructor
    · exact keysNodup_jsMapSet _ _ _ hwf.keysNodup
    · intro p hp
      simp only [] at hp ⊢
      rcases mem_jsMapSet hp with h | h
      · subst h
        simp only []
        omega
      · have := hwf.chartsLt p h
        omega
  · rfl
  · intro p hp hmem
    unfold ChartManager.destroyAllCharts at hmem
    simp only [] at hmem
    obtain ⟨-, hall⟩ := mem_live_foldl_destroy cm.charts env p.2 hmem
    exact hall p hp rfl

/-- Witness for C4 at a concrete input: the canvas seven-day-chart
already carries chart 1; re-creating destroys chart 1, registers the new
chart 2, and tearing down empties the registry. -/
theorem C4_witness :
    (∃ newId,
      ((ChartManager.mk [("seven-day-chart", 1)]).createChart ⟨2, [1]⟩
        ⟨["seven-day-chart"]⟩ "seven-day-chart").1 = some newId ∧
      jsMapGet ((ChartManager.mk [("seven-day-chart", 1)]).createChart ⟨2, [1]⟩
        ⟨["seven-day-chart"]⟩ "seven-day-chart").2.1.charts "seven-day-chart" =
        some newId ∧
      newId ∈ ((ChartManager.mk [("seven-day-chart", 1)]).createChart ⟨2, [1]⟩
        ⟨["seven-day-chart"]⟩ "seven-day-chart").2.2.live) ∧
    (∀ old, jsMapGet (ChartManager.mk [("seven-day-chart", 1)]).charts
        "seven-day-chart" = some old →
      old ∉ ((ChartManager.mk [("seven-day-chart", 1)]).createChart ⟨2, [1]⟩
        ⟨["seven-day-chart"]⟩ "seven-day-chart").2.2.live) ∧
    CMWf ((ChartManager.mk [("seven-day-chart", 1)]).createChart ⟨2, [1]⟩
        ⟨["seven-day-chart"]⟩ "seven-day-chart").2.1
      ((ChartManager.mk [("seven-day-chart", 1)]).createChart ⟨2, [1]⟩
        ⟨["seven-day-chart"]⟩ "seven-day-chart").2.2 ∧
    (((ChartManager.mk [("seven-day-chart", 1)]).destroyAllCharts
        ⟨2, [1]⟩).1.charts = [] ∧
      ∀ p ∈ (ChartManager.mk [("seven-day-chart", 1)]).charts,
        p.2 ∉ ((ChartManager.mk [("seven-day-chart", 1)]).destroyAllCharts
          ⟨2, [1]⟩).2.live) :=
  C4_chart_registry_unique_and_teardown (ChartManager.mk [("seven-day-chart", 1)])
    ⟨2, [1]⟩ ⟨["seven-day-chart"]⟩ "seven-day-chart"
    (by constructor <;> simp) (by simp)

/-! ## ErrorHandler message selection (charts.js lines 729-750) -/

/-- JavaScript error value reaching a catch block: an Error object
carrying a message (possibly empty) or a thrown string. -/
inductive JSError where
  | obj (message : String)
  | str (s : String)
  deriving Repr, DecidableEq

/-- Message selected by ErrorHandler.handle: error.message when truthy,
otherwise the error itself when it is a string, otherwise the generic
text. -/
def ErrorHandler.message : JSError → String
  | .obj m => if m ≠ "" then m else "An unexpected error occurred"
  | .str s => s

/-! ## ConnectionMonitor (charts.js lines 909-953) -/

/-- Signals observed by the connection monitor: the environment's online
and offline events and the outcome of one periodic health-check probe; a
failing probe carries the error with which adminAPI.healthCheck
rejected. -/
inductive ConnSignal where
  | onlineEvent
  | offlineEvent
  | checkOk
  | checkFail (e : JSError)
  deriving Repr, DecidableEq

/-- Monitor state: the tracked connectivity flag and the log of
user-visible notices, oldest first. -/
structure ConnMonitor where
  isOnline : Bool
  notices : List String
  deriving Repr, DecidableEq

/-- Handling of one signal exactly as the handlers registered in init()
and as checkConnection() behave: the online/offline event handlers set
the flag and show a notice unconditionally; a successful health check
shows a notice only when the tracked flag flips to online. A failing
check first surfaces the error notification raised inside
adminAPI.healthCheck: the probe runs through APIWrapper.execute
(charts.js lines 858-860), whose catch invokes ErrorHandler.handle and
hence Utils.showNotification(ErrorHandler.message e, 'error') on every
failed check (lines 767-768, 742) before rethrowing; the rethrown error
then reaches checkConnection's own catch, which adds the monitor notice
only when the tracked flag flips to offline. -/
def ConnMonitor.handle (cmon : ConnMonitor) : ConnSignal → ConnMonitor
  | .onlineEvent =>
      { isOnline := true, notices := cmon.notices ++ ["Connection restored"] }
  | .offlineEvent =>
      { isOnline := false, notices := cmon.notices ++ ["Connection lost"] }
  | .checkOk =>
      if cmon.isOnline = false then
        { isOnline := true, notices := cmon.notices ++ ["Connection restored"] }
      else cmon
  | .checkFail e =>
      if cmon.isOnline = true then
        { isOnline := false,
          notices := cmon.notices ++ [ErrorHandler.message e] ++
            ["Connection issues detected"] }
      else { cmon with notices := cmon.notices ++ [ErrorHandler.message e] }

/-- Run of the monitor over a sequence of signals. -/
def ConnMonitor.run (cmon : ConnMonitor) (sigs : List ConnSignal) : ConnMonitor :=
  sigs.foldl ConnMonitor.handle cmon

/-- Number of transitions of the tracked connectivity state along a run. -/
def ConnMonitor.transitionCount (cmon : ConnMonitor) : List ConnSignal → Nat
  | [] => 0
  | s :: rest =>
      (if (cmon.handle s).isOnline ≠ cmon.isOnline then 1 else 0) +
        (cmon.handle s).transitionCount rest

/-- Legality of a signal interleaving with respect to the environment's
own connectivity state nav: the browser fires an online event only on a
false-to-true transition of navigator.onLine and an offline event only on
a true-to-false transition; probe outcomes may occur at any time (the
backend may be unreachable while the OS link is up). -/
def legalSigs : Bool → List ConnSignal → Bool
  | _, [] => true
  | nav, .onlineEvent :: rest => !nav && legalSigs true rest
  | nav, .offlineEvent :: rest => nav && legalSigs false rest
  | nav, .checkOk :: rest => legalSigs nav rest
  | nav, .checkFail _ :: rest => legalSigs nav rest

/-- Number of environment online/offline events in a signal sequence. -/
def envEventCount : List ConnSignal → Nat
  | [] => 0
  | .onlineEvent :: rest => 1 + envEventCount rest
  | .offlineEvent :: rest => 1 + envEventCount rest
  | .checkOk :: rest => envEventCount rest
  | .checkFail _ :: rest => envEventCount rest

/-- Number of failing health-check probes in a signal sequence; each one
surfaces an error notification through ErrorHandler.handle inside
APIWrapper.execute's catch, regardless of the tracked state. -/
def failedCheckCount : List ConnSignal → Nat
  | [] => 0
  | .onlineEvent :: rest => failedCheckCount rest
  | .offlineEvent :: rest => failedCheckCount rest
  | .checkOk :: rest => failedCheckCount rest
  | .checkFail _ :: rest => 1 + failedCheckCount rest

/-- Number of health-check outcomes that flip the tracked state. -/
def ConnMonitor.probeTransitionCount (cmon : ConnMonitor) :
    List ConnSignal → Nat
  | [] => 0
  | .onlineEvent :: rest =>
      (cmon.handle .onlineEvent).probeTransitionCount rest
  | .offlineEvent :: rest =>
      (cmon.handle .offlineEvent).probeTransitionCount rest
  | .checkOk :: rest =>
      (if cmon.isOnline = false then 1 else 0) +
        (cmon.handle .checkOk).probeTransitionCount rest
  | .checkFail e :: rest =>
      (if cmon.isOnline = true then 1 else 0) +
        (cmon.handle (.checkFail e)).probeTransitionCount rest

/-- Counterexample to C5: starting online, a failing health-check probe
followed by the environment's offline event is a legal interleaving in
which the tracked connectivity state transitions once but three
user-visible notices surface (the error notification raised by
ErrorHandler.handle inside the probe's APIWrapper.execute call, the
monitor's flip notice, and the offline event's notice); moreover a
failing probe while already offline is a legal run with no transition
that still surfaces one notice, so failed checks do surface one notice
per check. -/
theorem C5_counterexample :
    (legalSigs true
        [ConnSignal.checkFail (JSError.obj "HTTP error! status: 503"),
         ConnSignal.offlineEvent] = true ∧
      (ConnMonitor.mk true []).transitionCount
        [ConnSignal.checkFail (JSError.obj "HTTP error! status: 503"),
         ConnSignal.offlineEvent] = 1 ∧
      ((ConnMonitor.mk true []).run
        [ConnSignal.checkFail (JSError.obj "HTTP error! status: 503"),
         ConnSignal.offlineEvent]).notices.length = 3) ∧
    (legalSigs false
        [ConnSignal.checkFail (JSError.obj "HTTP error! status: 503")] =
          true ∧
      (ConnMonitor.mk false []).transitionCount
        [ConnSignal.checkFail (JSError.obj "HTTP error! status: 503")] = 0 ∧
      ((ConnMonitor.mk false []).run
        [ConnSignal.checkFail
          (JSError.obj "HTTP error! status: 503")]).notices.length = 1) := by
  refine ⟨⟨rfl, rfl, rfl⟩, rfl, rfl, rfl⟩

/-- C5 amended: along every interleaving, the number of notices surfaced
equals the number of environment online/offline events, plus the number
of failing health-check probes (each surfaces one error notification via
ErrorHandler.handle inside APIWrapper.execute's catch — one per failed
check), plus the number of health-check outcomes that flip the tracked
state (the monitor's own notices). The monitor's notice is the only one
rate-limited to transitions; a failing check additionally surfaces an
error notification every time, and each environment event surfaces one
notice even when the tracked state does not change, so a single offline
transition reported by a failing probe and then the matching environment
event surfaces three notices. -/
theorem C5_amended_notice_count (cmon : ConnMonitor) (sigs : List ConnSignal) :
    (cmon.run sigs).notices.length =
      cmon.notices.length + envEventCount sigs + failedCheckCount sigs +
        cmon.probeTransitionCount sigs := by
  induction sigs generalizing cmon with
  | nil => simp [ConnMonitor.run, envEventCount, failedCheckCount,
      ConnMonitor.probeTransitionCount]
  | cons s rest ih =>
      cases s with
      | onlineEvent =>
          have h := ih (cmon.handle .onlineEvent)
          simp only [ConnMonitor.run, List.foldl_cons] at h ⊢
          rw [h]
          simp [ConnMonitor.handle, envEventCount, failedCheckCount,
            ConnMonitor.probeTransitionCount]
          omega
      | offlineEvent =>
          have h := ih (cmon.handle .offlineEvent)
          simp only [ConnMonitor.run, List.foldl_cons] at h ⊢
          rw [h]
          simp [ConnMonitor.handle, envEventCount, failedCheckCount,
            ConnMonitor.probeTransitionCount]
          omega
      | checkOk =>
          have h := ih (cmon.handle .checkOk)
          simp only [ConnMonitor.run, List.foldl_cons] at h ⊢
          rw [h]
          by_cases hon : cmon.isOnline = false
          · simp [ConnMonitor.handle, envEventCount, failedCheckCount,
              ConnMonitor.probeTransitionCount, hon]
            omega
          · simp [ConnMonitor.handle, envEventCount, failedCheckCount,
              ConnMonitor.probeTransitionCount, hon]
      | checkFail e =>
          have h := ih (cmon.handle (.checkFail e))
          simp only [ConnMonitor.run, List.foldl_cons] at h ⊢
          rw [h]
          by_cases hon : cmon.isOnline = true
          · simp [ConnMonitor.handle, envEventCount, failedCheckCount,
              ConnMonitor.probeTransitionCount, hon]
            omega
          · simp [ConnMonitor.handle, envEventCount, failedCheckCount,
              ConnMonitor.probeTransitionCount, hon]
            omega

/-! ## ErrorHandler, AdminAPI.request and APIWrapper.execute
(charts.js lines 511-536, 729-775) -/

/-- Console-wide state touched by APIWrapper.execute: the loading
manager, the log of notifications shown via Utils.showNotification
(message, type) and the log of ErrorHandler.handle invocations
(error, context). -/
structure ConsoleState where
  loading : LoadingManager
  notices : List (String × String)
  handledErrors : List (JSError × String)
  deriving Repr, DecidableEq

/-- ErrorHandler.handle(error, context): logs the invocation and shows a
user-visible error notification with the selected message. -/
def ErrorHandler.handle (st : ConsoleState) (e : JSError) (context : String) :
    ConsoleState :=
  { st with
    handledErrors := st.handledErrors ++ [(e, context)]
    notices := st.notices ++ [(ErrorHandler.message e, "error")] }

/-- Result of one APIWrapper.execute call: the loading set as it stood
while awaiting the api call, the returned or rethrown outcome, and the
final console state. -/
structure ExecResult (α : Type) where
  duringCall : List String
  result : Except JSError α
  final : ConsoleState

/-- APIWrapper.execute(apiCall, loadingKey, showLoading): shows the
loading key, awaits the call, on failure invokes ErrorHandler.handle and
rethrows, and in the finally block hides the loading key. -/
def APIWrapper.execute {α : Type} (apiCall : Except JSError α)
    (loadingKey : String) (showLoading : Bool) (st : ConsoleState) :
    ExecResult α :=
  let st1 :=
    if showLoading then { st with loading := st.loading.show loadingKey }
    else st
  match apiCall with
  | .ok v =>
      ⟨st1.loading.loadingStates, .ok v,
       if showLoading then { st1 with loading := st1.loading.hide loadingKey }
       else st1⟩
  | .error e =>
      let st2 := ErrorHandler.handle st1 e loadingKey
      ⟨st1.loading.loadingStates, .error e,
       if showLoading then { st2 with loading := st2.loading.hide loadingKey }
       else st2⟩

/-- Fallback message built by AdminAPI.request from the HTTP status. -/
def httpErrorMessage (status : Nat) : String :=
  "HTTP error! status: " ++ toString status

/-- Outcome of the underlying fetch in AdminAPI.request: a response
(ok flag, status, optional detail field of the error payload, body) or a
network-level rejection. -/
inductive FetchOutcome where
  | response (ok : Bool) (status : Nat) (detail : Option String) (body : String)
  | netError (e : JSError)
  deriving Repr, DecidableEq

/-- AdminAPI.request: a non-ok response throws an Error whose message is
the payload detail when truthy, else the HTTP fallback; a fetch rejection
is rethrown unchanged. -/
def AdminAPI.request : FetchOutcome → Except JSError String
  | .response ok status detail body =>
      if ok then .ok body
      else .error (.obj (match detail with
        | some d => if d ≠ "" then d else httpErrorMessage status
        | none => httpErrorMessage status))
  | .netError e => .error e

theorem ErrorHandler.message_obj_ne (m : String) :
    ErrorHandler.message (.obj m) ≠ "" := by
  by_cases h : m = ""
  · subst h
    decide
  · simp [ErrorHandler.message, h]

/-- C7: a failing API call through APIWrapper.execute is never silently
swallowed: ErrorHandler.handle is invoked on the error, exactly one
user-visible error notification carrying a non-empty human-readable
message is shown, and the error is rethrown to the caller. Fetch
rejections are Error objects, never thrown strings. -/
theorem C7_failures_surfaced_and_rethrown (fo : FetchOutcome) (key : String)
    (st : ConsoleState) (e : JSError)
    (herr : AdminAPI.request fo = .error e)
    (hnet : ∀ s, fo ≠ FetchOutcome.netError (.str s)) :
    (APIWrapper.execute (AdminAPI.request fo) key true st).result =
      .error e ∧
    (APIWrapper.execute (AdminAPI.request fo) key true st).final.handledErrors =
      st.handledErrors ++ [(e, key)] ∧
    (APIWrapper.execute (AdminAPI.request fo) key true st).final.notices =
      st.notices ++ [(ErrorHandler.message e, "error")] ∧
    ErrorHandler.message e ≠ "" := by
  have hobj : ∃ m, e = JSError.obj m := by
    cases fo with
    | response ok status detail body =>
        simp only [AdminAPI.request] at herr
        by_cases hok : ok = true
        · rw [if_pos hok] at herr
          cases herr
        · rw [if_neg hok] at herr
          exact ⟨_, (Except.error.inj herr).symm⟩
    | netError e2 =>
        simp only [AdminAPI.request] at herr
        have he2 : e2 = e := Except.error.inj herr
        subst he2
        cases e2 with
        | obj m => exact ⟨m, rfl⟩
        | str s => exact absurd rfl (hnet s)
  rw [herr]
  refine ⟨rfl, ?_, ?_, ?_⟩
  · unfold APIWrapper.execute ErrorHandler.handle
    simp [LoadingManager.show]
  · unfold APIWrapper.execute ErrorHandler.handle
    simp [LoadingManager.show]
  · obtain ⟨m, hm⟩ := hobj
    subst hm
    exact ErrorHandler.message_obj_ne m

/-- Witness for C7: a 503 listing response whose payload detail reads
backend unavailable surfaces that message and rethrows. -/
theorem C7_witness :
    (APIWrapper.execute
        (AdminAPI.request
          (FetchOutcome.response false 503 (some "backend unavailable") ""))
        "tickets" true ⟨⟨[], true, false⟩, [], []⟩).result =
      .error (JSError.obj "backend unavailable") ∧
    (APIWrapper.execute
        (AdminAPI.request
          (FetchOutcome.response false 503 (some "backend unavailable") ""))
        "tickets" true ⟨⟨[], true, false⟩, [], []⟩).final.handledErrors =
      [] ++ [(JSError.obj "backend unavailable", "tickets")] ∧
    (APIWrapper.execute
        (AdminAPI.request
          (FetchOutcome.response false 503 (some "backend unavailable") ""))
        "tickets" true ⟨⟨[], true, false⟩, [], []⟩).final.notices =
      [] ++ [(ErrorHandler.message (.obj "backend unavailable"), "error")] ∧
    ErrorHandler.message (JSError.obj "backend unavailable") ≠ "" :=
  C7_failures_surfaced_and_rethrown
    (FetchOutcome.response false 503 (some "backend unavailable") "") "tickets"
    ⟨⟨[], true, false⟩, [], []⟩ (JSError.obj "backend unavailable")
    rfl (by intro s h; cases h)

theorem mem_jsSetAdd_self (s : List String) (k : String) : k ∈ jsSetAdd s k := by
  unfold jsSetAdd
  split
  · rename_i hc
    exact List.mem_of_elem_eq_true hc
  · simp

theorem jsSetDelete_add_of_not_mem {s : List String} {k : String}
    (h : k ∉ s) : jsSetDelete (jsSetAdd s k) k = s := by
  have hc : s.contains k = false := by
    cases hcon : s.contains k with
    | false => rfl
    | true => exact absurd (List.mem_of_elem_eq_true hcon) h
  unfold jsSetAdd
  rw [if_neg (fun hcon => h (List.mem_of_elem_eq_true hcon))]
  unfold jsSetDelete
  rw [List.filter_append]
  have h1 : List.filter (fun x => x != k) [k] = [] := by
    simp [List.filter]
  have h2 : List.filter (fun x => x != k) s = s := by
    apply List.filter_eq_self.mpr
    intro x hx
    simp only [bne_iff_ne, ne_eq, decide_eq_true_eq]
    intro hxk
    exact h (hxk ▸ hx)
  rw [h1, h2, List.append_nil]

/-- C8: across one APIWrapper.execute lifecycle with showLoading, the
loading key is in the loading set while the call is awaited and is
removed afterwards whether the call succeeds or throws, restoring the
set; with showLoading=false the loading state is left entirely
unchanged. -/
theorem C8_loading_refcount_accurate {α : Type} (apiCall : Except JSError α)
    (key : String) (st : ConsoleState)
    (hkey : key ∉ st.loading.loadingStates) :
    key ∈ (APIWrapper.execute apiCall key true st).duringCall ∧
    (APIWrapper.execute apiCall key true st).final.loading.loadingStates =
      jsSetDelete (jsSetAdd st.loading.loadingStates key) key ∧
    (APIWrapper.execute apiCall key true st).final.loading.loadingStates =
      st.loading.loadingStates ∧
    (APIWrapper.execute apiCall key false st).duringCall =
      st.loading.loadingStates ∧
    (APIWrapper.execute apiCall key false st).final.loading = st.loading := by
  have hrestore := jsSetDelete_add_of_not_mem hkey
  cases apiCall with
  | ok v =>
      refine ⟨?_, ?_, ?_, rfl, rfl⟩
      · exact mem_jsSetAdd_self _ _
      · rfl
      · simpa using hrestore
  | error e =>
      refine ⟨?_, ?_, ?_, rfl, rfl⟩
      · exact mem_jsSetAdd_self _ _
      · rfl
      · simpa using hrestore

/-- Witness for C8: a dashboard request starting while a tickets request
is still in flight leaves the loading set exactly as it found it. -/
theorem C8_witness :
    "dashboard" ∈ (APIWrapper.execute (Except.ok "payload" : Except JSError String)
      "dashboard" true ⟨⟨["tickets"], true, true⟩, [], []⟩).duringCall ∧
    (APIWrapper.execute (Except.ok "payload" : Except JSError String)
      "dashboard" true ⟨⟨["tickets"], true, true⟩, [], []⟩).final.loading.loadingStates =
      jsSetDelete (jsSetAdd ["tickets"] "dashboard") "dashboard" ∧
    (APIWrapper.execute (Except.ok "payload" : Except JSError String)
      "dashboard" true ⟨⟨["tickets"], true, true⟩, [], []⟩).final.loading.loadingStates =
      ["tickets"] ∧
    (APIWrapper.execute (Except.ok "payload" : Except JSError String)
      "dashboard" false ⟨⟨["tickets"], true, true⟩, [], []⟩).duringCall =
      ["tickets"] ∧
    (APIWrapper.execute (Except.ok "payload" : Except JSError String)
      "dashboard" false ⟨⟨["tickets"], true, true⟩, [], []⟩).final.loading =
      ⟨["tickets"], true, true⟩ :=
  C8_loading_refcount_accurate (Except.ok "payload") "dashboard"
    ⟨⟨["tickets"], true, true⟩, [], []⟩ (by decide)

/-! ## startAutoRefresh and the visibilitychange handler
(app.js lines 565-581, 615-622, config.js CONFIG.AUTO_REFRESH) -/

/-- CONFIG.AUTO_REFRESH.enabled. -/
def CONFIG.AUTO_REFRESH.enabledFlag : Bool := true

/-- CONFIG.AUTO_REFRESH.dashboard, in milliseconds. -/
def CONFIG.AUTO_REFRESH.dashboard : Nat := 30000

/-- CONFIG.AUTO_REFRESH.tickets, in milliseconds. -/
def CONFIG.AUTO_REFRESH.tickets : Nat := 10000

/-- AdminPanel.startAutoRefresh: returns when auto-refresh is disabled in
CONFIG, otherwise starts the dashboard task and the tickets task with
their configured intervals. -/
def AdminPanel.startAutoRefresh (ar : AutoRefresh) (env : TimerEnv) :
    AutoRefresh × TimerEnv :=
  if CONFIG.AUTO_REFRESH.enabledFlag = false then (ar, env)
  else
    let s1 := ar.start env "dashboard" CONFIG.AUTO_REFRESH.dashboard
    s1.1.start s1.2 "tickets" CONFIG.AUTO_REFRESH.tickets

/-- The document visibilitychange handler: when the document becomes
hidden every auto-refresh timer is stopped; when it becomes visible the
auto-refresh tasks are started again. -/
def handleVisibilityChange (hidden : Bool) (ar : AutoRefresh)
    (env : TimerEnv) : AutoRefresh × TimerEnv :=
  if hidden then ar.stopAll env
  else AdminPanel.startAutoRefresh ar env

theorem mem_active_foldl_clear (l : List (String × Nat)) :
    ∀ (env : TimerEnv) (q : Nat × Nat),
      q ∈ (l.foldl (fun e p => e.clearInterval p.2) env).active →
      q ∈ env.active ∧ ∀ p ∈ l, q.1 ≠ p.2 := by
  induction l with
  | nil =>
      intro env q hq
      exact ⟨hq, by simp⟩
  | cons p rest ih =>
      intro env q hq
      rw [List.foldl_cons] at hq
      obtain ⟨hmem, hall⟩ := ih (env.clearInterval p.2) q hq
      have hmem2 := List.mem_filter.mp hmem
      refine ⟨hmem2.1, ?_⟩
      intro r hr
      rcases List.mem_cons.mp hr with h | h
      · subst h
        simpa using hmem2.2
      · exact hall r h

theorem jsMapGet_append_left {β : Type} {m1 m2 : List (String × β)}
    {k : String} {v : β} (h : jsMapGet m1 k = some v) :
    jsMapGet (m1 ++ m2) k = some v := by
  unfold jsMapGet at h ⊢
  rw [List.find?_append]
  cases hf : m1.find? (fun p => p.1 == k) with
  | none =>
      rw [hf] at h
      simp at h
  | some p =>
      rw [hf] at h
      simpa using h

theorem jsMapGet_delete_ne {β : Type} {m : List (String × β)} {k k' : String}
    (hne : k ≠ k') : jsMapGet (jsMapDelete m k') k = jsMapGet m k := by
  unfold jsMapGet jsMapDelete
  congr 1
  induction m with
  | nil => rfl
  | cons p rest ih =>
      by_cases hk' : (p.1 == k') = true
      · have hp1 : p.1 = k' := beq_iff_eq.mp hk'
        have hpk : (p.1 == k) = false := by
          rw [beq_eq_false_iff_ne, hp1]
          exact fun hc => hne hc.symm
        rw [List.filter_cons]
        rw [if_neg (by simp [bne, hk'])]
        simp only [List.find?, hpk]
        exact ih
      · rw [List.filter_cons]
        rw [if_pos (by simp [bne, hk'])]
        by_cases hpk : (p.1 == k) = true
        · simp only [List.find?, hpk]
        · have hpk2 : (p.1 == k) = false := by simpa using hpk
          simp only [List.find?, hpk2]
          exact ih

/-- C9: when the console becomes hidden the visibilitychange handler
cancels every timer in the auto-refresh registry and leaves the registry
empty; when visibility returns it starts the dashboard and tickets
auto-refresh timers again with their configured intervals. -/
theorem C9_visibility_suspends_and_resumes (ar : AutoRefresh)
    (env : TimerEnv) (hwf : ARWf ar env) (hen : ar.enabled = true) :
    ((handleVisibilityChange true ar env).1.intervals = [] ∧
      ∀ p ∈ ar.intervals,
        ∀ q ∈ (handleVisibilityChange true ar env).2.active, q.1 ≠ p.2) ∧
    (∃ idD idT,
      jsMapGet (handleVisibilityChange false ar env).1.intervals "dashboard" =
        some idD ∧
      jsMapGet (handleVisibilityChange false ar env).1.intervals "tickets" =
        some idT ∧
      (idD, CONFIG.AUTO_REFRESH.dashboard) ∈
        (handleVisibilityChange false ar env).2.active ∧
      (idT, CONFIG.AUTO_REFRESH.tickets) ∈
        (handleVisibilityChange false ar env).2.active) := by
  constructor
  · constructor
    · rfl
    · intro p hp q hq
      have hq2 : q ∈ (ar.intervals.foldl
          (fun e r => e.clearInterval r.2) env).active := hq
      obtain ⟨-, hall⟩ := mem_active_foldl_clear ar.intervals env q hq2
      exact hall p hp
  · have hvis : handleVisibilityChange false ar env =
        (ar.start env "dashboard" CONFIG.AUTO_REFRESH.dashboard).1.start
          (ar.start env "dashboard" CONFIG.AUTO_REFRESH.dashboard).2
          "tickets" CONFIG.AUTO_REFRESH.tickets := rfl
    obtain ⟨hint1, hen1, hnext1, hact1⟩ :=
      ar.start_char env "dashboard" CONFIG.AUTO_REFRESH.dashboard hwf hen
    have hwf1 := ar.start_wf env "dashboard" CONFIG.AUTO_REFRESH.dashboard hwf hen
    obtain ⟨hint2, hen2, hnext2, hact2⟩ :=
      (ar.start env "dashboard" CONFIG.AUTO_REFRESH.dashboard).1.start_char
        (ar.start env "dashboard" CONFIG.AUTO_REFRESH.dashboard).2
        "tickets" CONFIG.AUTO_REFRESH.tickets hwf1 hen1
    refine ⟨env.nextId,
      (ar.start env "dashboard" CONFIG.AUTO_REFRESH.dashboard).2.nextId,
      ?_, ?_, ?_, ?_⟩
    · rw [hvis, hint2]
      apply jsMapGet_append_left
      rw [jsMapGet_delete_ne (by decide)]
      rw [hint1, ← jsMapSet_delete_eq_append]
      exact jsMapGet_set_self _ _ _
    · rw [hvis, hint2, ← jsMapSet_delete_eq_append]
      exact jsMapGet_set_self _ _ _
    · rw [hvis, hact2]
      apply List.mem_append_left
      cases hg : jsMapGet
          (ar.start env "dashboard" CONFIG.AUTO_REFRESH.dashboard).1.intervals
          "tickets" with
      | none =>
          rw [hact1]
          simp
      | some oldT =>
          apply List.mem_filter.mpr
          constructor
          · rw [hact1]
            simp
          · obtain ⟨pT, hpT, hpTk, hpTv⟩ := jsMapGet_some_mem hg
            rw [hint1] at hpT
            rcases List.mem_append.mp hpT with h | h
            · have hmem := (mem_jsMapDelete.mp h).1
              have := hwf.idsLt pT hmem
              simp only [bne_iff_ne, ne_eq, decide_eq_true_eq]
              omega
            · simp only [List.mem_singleton] at h
              rw [h] at hpTk
              simp at hpTk
    · rw [hvis, hact2]
      apply List.mem_append_right
      simp

/-- Witness for C9 at a concrete registry holding live dashboard and
tickets timers: hiding the console empties the registry and cancels both
timers; returning to visibility starts both tasks again. -/
theorem C9_witness :
    ((handleVisibilityChange true
        (AutoRefresh.mk [("dashboard", 1), ("tickets", 2)] true)
        ⟨3, [(1, 30000), (2, 10000)]⟩).1.intervals = [] ∧
      ∀ p ∈ (AutoRefresh.mk [("dashboard", 1), ("tickets", 2)] true).intervals,
        ∀ q ∈ (handleVisibilityChange true
          (AutoRefresh.mk [("dashboard", 1), ("tickets", 2)] true)
          ⟨3, [(1, 30000), (2, 10000)]⟩).2.active, q.1 ≠ p.2) ∧
    (∃ idD idT,
      jsMapGet (handleVisibilityChange false
        (AutoRefresh.mk [("dashboard", 1), ("tickets", 2)] true)
        ⟨3, [(1, 30000), (2, 10000)]⟩).1.intervals "dashboard" = some idD ∧
      jsMapGet (handleVisibilityChange false
        (AutoRefresh.mk [("dashboard", 1), ("tickets", 2)] true)
        ⟨3, [(1, 30000), (2, 10000)]⟩).1.intervals "tickets" = some idT ∧
      (idD, CONFIG.AUTO_REFRESH.dashboard) ∈
        (handleVisibilityChange false
          (AutoRefresh.mk [("dashboard", 1), ("tickets", 2)] true)
          ⟨3, [(1, 30000), (2, 10000)]⟩).2.active ∧
      (idT, CONFIG.AUTO_REFRESH.tickets) ∈
        (handleVisibilityChange false
          (AutoRefresh.mk [("dashboard", 1), ("tickets", 2)] true)
          ⟨3, [(1, 30000), (2, 10000)]⟩).2.active) :=
  C9_visibility_suspends_and_resumes
    (AutoRefresh.mk [("dashboard", 1), ("tickets", 2)] true)
    ⟨3, [(1, 30000), (2, 10000)]⟩
    (by constructor <;> simp) rfl

/-! ## ChartManager.mergeOptions (charts.js lines 86-102)

Mutation is modelled explicitly: plain objects live on a heap of
addressed nodes (ordered string fields), while primitives and arrays are
immutable values (the admin panel's defaultOptions contains no arrays and
the merge guard never descends into arrays, so array identity is not
observable in this code). Functions are opaque tags, dropped by
JSON.stringify. -/

/-- JavaScript value: primitives, arrays (as serialized values),
functions (opaque) and references to heap objects. -/
inductive JSVal where
  | nullV
  | undef
  | boolV (b : Bool)
  | numV (q : ℚ)
  | strV (s : String)
  | funcV (tag : Nat)
  | arrV (elems : List JSVal)
  | ref (a : Nat)
  deriving Repr

/-- Heap of plain objects: a fresh-address allocator and the address to
field-list store. -/
structure JSHeap where
  nextAddr : Nat
  mem : List (Nat × List (String × JSVal))
  deriving Repr

/-- Object lookup. -/
def heapGet (h : JSHeap) (a : Nat) : Option (List (String × JSVal)) :=
  (h.mem.find? (fun p => p.1 == a)).map Prod.snd

/-- Object replacement (no-op on an absent address). -/
def heapSetNode (h : JSHeap) (a : Nat) (nd : List (String × JSVal)) : JSHeap :=
  { h with mem := h.mem.map (fun p => if p.1 == a then (a, nd) else p) }

/-- Allocation of a fresh empty object, as the object literal does. -/
def jsAllocEmpty (h : JSHeap) : JSVal × JSHeap :=
  (.ref h.nextAddr,
   { nextAddr := h.nextAddr + 1, mem := h.mem ++ [(h.nextAddr, [])] })

/-- JavaScript truthiness. -/
def truthy : JSVal → Bool
  | .nullV => false
  | .undef => false
  | .boolV b => b
  | .numV q => !(q == 0)
  | .strV s => !(s == "")
  | .funcV _ => true
  | .arrV _ => true
  | .ref _ => true

/-- The merge guard's object test: typeof source[key] === 'object' and
not an array holds exactly for references to (existing) plain objects. -/
def isObjRefB (h : JSHeap) : JSVal → Bool
  | .ref a => (heapGet h a).isSome
  | _ => false

/-- Property read target[key]: undefined when the key or object is
absent (primitive bases read as undefined; no prototype chain). -/
def readField (h : JSHeap) (a : Nat) (k : String) : JSVal :=
  ((heapGet h a).bind (fun f => jsMapGet f k)).getD JSVal.undef

/-- Property write target[key] = v on an object reference. -/
def writeField (h : JSHeap) (a : Nat) (k : String) (v : JSVal) : JSHeap :=
  match heapGet h a with
  | some f => heapSetNode h a (jsMapSet f k v)
  | none => h

/-- Key/value pairs enumerated by for (const key in source). -/
def enumFields (h : JSHeap) : JSVal → List (String × JSVal)
  | .ref a => (heapGet h a).getD []
  | .arrV xs => xs.enum.map (fun p => (toString p.1, p.2))
  | _ => []

mutual

/-- One JSON.parse(JSON.stringify(v)) step: objects are rebuilt as fresh
nodes, arrays elementwise (functions and undefined become null there),
primitives pass through; fuel bounds the depth (stringify throws on
cycles). -/
def jsonCopyVal : Nat → JSHeap → JSVal → Option (JSVal × JSHeap)
  | 0, _, _ => none
  | fuel + 1, h, v =>
      match v with
      | .ref a =>
          match heapGet h a with
          | some fields =>
              match jsonCopyFields fuel h fields with
              | some (fields2, h2) =>
                  some (.ref h2.nextAddr,
                    { nextAddr := h2.nextAddr + 1,
                      mem := h2.mem ++ [(h2.nextAddr, fields2)] })
              | none => none
          | none => none
      | .arrV xs =>
          match jsonCopyElems fuel h xs with
          | some (xs2, h2) => some (.arrV xs2, h2)
          | none => none
      | prim => some (prim, h)

/-- Field copy for stringify: keys holding functions or undefined are
omitted. -/
def jsonCopyFields : Nat → JSHeap → List (String × JSVal) →
    Option (List (String × JSVal) × JSHeap)
  | 0, _, _ => none
  | _ + 1, h, [] => some ([], h)
  | fuel + 1, h, (k, v) :: rest =>
      match v with
      | .funcV _ => jsonCopyFields fuel h rest
      | .undef => jsonCopyFields fuel h rest
      | _ =>
          match jsonCopyVal fuel h v with
          | some (v2, h2) =>
              match jsonCopyFields fuel h2 rest with
              | some (rest2, h3) => some ((k, v2) :: rest2, h3)
              | none => none
          | none => none

/-- Element copy for stringify: functions and undefined serialize to
null inside arrays. -/
def jsonCopyElems : Nat → JSHeap → List JSVal →
    Option (List JSVal × JSHeap)
  | 0, _, _ => none
  | _ + 1, h, [] => some ([], h)
  | fuel + 1, h, v :: rest =>
      match v with
      | .funcV _ =>
          match jsonCopyElems fuel h rest with
          | some (rest2, h2) => some (.nullV :: rest2, h2)
          | none => none
      | .undef =>
          match jsonCopyElems fuel h rest with
          | some (rest2, h2) => some (.nullV :: rest2, h2)
          | none => none
      | _ =>
          match jsonCopyVal fuel h v with
          | some (v2, h2) =>
              match jsonCopyElems fuel h2 rest with
              | some (rest2, h3) => some (v2 :: rest2, h3)
              | none => none
          | none => none

end

/-- Evaluation of target[key] = target[key] || \x7b\x7d on an object
target: a truthy existing slot is kept, otherwise a fresh empty object is
allocated; the result is the value to be stored and recursed into. -/
def mergeStepTarget (h : JSHeap) (a : Nat) (k : String) : JSVal × JSHeap :=
  let tk := readField h a k
  if truthy tk then (tk, h) else jsAllocEmpty h

/-- The recursive helper merge(target, source) of mergeOptions: for each
source key, a truthy plain-object source value first replaces a falsy
target slot by a fresh object and recurses into target[key], while any
other value is assigned directly; property access on undefined or null
throws (none), assignments on primitive bases are silent no-ops (on a
primitive base the slot re-reads as undefined, so a non-empty nested
source object then throws, as in the engine). Fuel bounds the recursion
depth and the iteration budget. -/
def mergeGo : Nat → JSHeap → JSVal → List (String × JSVal) → Option JSHeap
  | _, h, _, [] => some h
  | 0, _, _, _ :: _ => none
  | fuel + 1, h, t, (k, v) :: rest =>
      match t with
      | .undef => none
      | .nullV => none
      | .ref a =>
          if truthy v && isObjRefB h v then
            let al := mergeStepTarget h a k
            let h2 := writeField al.2 a k al.1
            (mergeGo fuel h2 al.1 (enumFields h2 v)).bind
              (fun h3 => mergeGo fuel h3 (.ref a) rest)
          else mergeGo fuel (writeField h a k v) (.ref a) rest
      | other =>
          if truthy v && isObjRefB h v then
            (mergeGo fuel (jsAllocEmpty h).2 JSVal.undef
                (enumFields (jsAllocEmpty h).2 v)).bind
              (fun h3 => mergeGo fuel h3 other rest)
          else mergeGo fuel h other rest

/-- ChartManager.mergeOptions(defaultOptions, customOptions): a JSON
round-trip copy of the defaults, then merge(merged, customOptions);
returns the merged value and the final heap. -/
def mergeOptions (fuel : Nat) (h : JSHeap) (defaultsVal customVal : JSVal) :
    Option (JSVal × JSHeap) :=
  match jsonCopyVal fuel h defaultsVal with
  | some (merged, h1) =>
      match mergeGo fuel h1 merged (enumFields h1 customVal) with
      | some h2 => some (merged, h2)
      | none => none
  | none => none

/-- Heap sanity: every stored address is below the allocator. -/
def WFH (h : JSHeap) : Prop := ∀ p ∈ h.mem, p.1 < h.nextAddr

/-- A value is harmless as merge-target material relative to the
boundary n0: any reference it carries points at or above n0 or dangles. -/
def GoodVal (h : JSHeap) (n0 : Nat) (v : JSVal) : Prop :=
  ∀ a, v = .ref a → n0 ≤ a ∨ heapGet h a = none

/-- Every object at or above the boundary holds only GoodVal fields. -/
def HC (h : JSHeap) (n0 : Nat) : Prop :=
  ∀ a fields, n0 ≤ a → heapGet h a = some fields →
    ∀ p ∈ fields, GoodVal h n0 p.2

theorem natFind_map_set_ne {τ : Type} (mem : List (Nat × τ)) (a : Nat)
    (nd : τ) (b : Nat) (hba : b ≠ a) :
    (mem.map (fun p => if p.1 == a then (a, nd) else p)).find?
        (fun p => p.1 == b) =
      mem.find? (fun p => p.1 == b) := by
  induction mem with
  | nil => rfl
  | cons q rest ih =>
      by_cases hqa : (q.1 == a) = true
      · have hq1 : q.1 = a := beq_iff_eq.mp hqa
        simp only [List.map_cons, if_pos hqa]
        have hab : (a == b) = false := by
          rw [beq_eq_false_iff_ne]
          exact fun hc => hba hc.symm
        have hqb : (q.1 == b) = false := by
          rw [hq1]
          exact hab
        simp only [List.find?, hab, hqb]
        exact ih
      · simp only [List.map_cons, if_neg hqa]
        by_cases hqb : (q.1 == b) = true
        · simp only [List.find?, hqb]
        · have hqb2 : (q.1 == b) = false := by simpa using hqb
          simp only [List.find?, hqb2]
          exact ih

theorem natFind_map_set_self {τ : Type} (mem : List (Nat × τ)) (a : Nat)
    (nd : τ) (hsome : (mem.find? (fun p => p.1 == a)).isSome = true) :
    (mem.map (fun p => if p.1 == a then (a, nd) else p)).find?
        (fun p => p.1 == a) = some (a, nd) := by
  induction mem with
  | nil => simp [List.find?] at hsome
  | cons q rest ih =>
      by_cases hqa : (q.1 == a) = true
      · simp only [List.map_cons, if_pos hqa]
        simp only [List.find?, beq_self_eq_true]
      · have hqa2 : (q.1 == a) = false := by simpa using hqa
        simp only [List.map_cons, if_neg hqa]
        simp only [List.find?, hqa2]
        apply ih
        simpa [List.find?, hqa2] using hsome

theorem natFind_map_set_of_none {τ : Type} (mem : List (Nat × τ)) (a : Nat)
    (nd : τ) (hnone : mem.find? (fun p => p.1 == a) = none) :
    mem.map (fun p => if p.1 == a then (a, nd) else p) = mem := by
  rw [List.find?_eq_none] at hnone
  have : ∀ p ∈ mem, (if p.1 == a then (a, nd) else p) = p := by
    intro p hp
    rw [if_neg (hnone p hp)]
  calc mem.map (fun p => if p.1 == a then (a, nd) else p)
      = mem.map id := List.map_congr_left this
    _ = mem := List.map_id mem

theorem heapGet_setNode_ne {h : JSHeap} {a : Nat}
    {nd : List (String × JSVal)} {b : Nat} (hba : b ≠ a) :
    heapGet (heapSetNode h a nd) b = heapGet h b := by
  unfold heapGet heapSetNode
  simp only []
  rw [natFind_map_set_ne h.mem a nd b hba]

theorem heapGet_setNode_self {h : JSHeap} {a : Nat}
    {nd f0 : List (String × JSVal)} (hsome : heapGet h a = some f0) :
    heapGet (heapSetNode h a nd) a = some nd := by
  unfold heapGet at hsome ⊢
  unfold heapSetNode
  simp only []
  rw [natFind_map_set_self h.mem a nd]
  · rfl
  · cases hf : h.mem.find? (fun p => p.1 == a) with
    | none => rw [hf] at hsome; simp at hsome
    | some p => rfl

theorem heapGet_setNode_none {h : JSHeap} {a : Nat}
    {nd : List (String × JSVal)} {b : Nat} (hnone : heapGet h b = none) :
    heapGet (heapSetNode h a nd) b = none := by
  by_cases hba : b = a
  · subst hba
    unfold heapGet at hnone ⊢
    unfold heapSetNode
    simp only []
    cases hf : h.mem.find? (fun p => p.1 == b) with
    | some p => rw [hf] at hnone; simp at hnone
    | none => rw [natFind_map_set_of_none h.mem b nd hf, hf]; rfl
  · rw [heapGet_setNode_ne hba]
    exact hnone

theorem heapSetNode_nextAddr (h : JSHeap) (a : Nat)
    (nd : List (String × JSVal)) :
    (heapSetNode h a nd).nextAddr = h.nextAddr := rfl

theorem heapGet_appendNode {h : JSHeap} {nd : List (String × JSVal)}
    {b : Nat} (hb : b ≠ h.nextAddr) :
    heapGet ⟨h.nextAddr + 1, h.mem ++ [(h.nextAddr, nd)]⟩ b = heapGet h b := by
  unfold heapGet
  simp only []
  rw [List.find?_append]
  cases hf : h.mem.find? (fun p => p.1 == b) with
  | some p => rfl
  | none =>
      have hnb : (h.nextAddr == b) = false := by
        rw [beq_eq_false_iff_ne]
        exact fun hc => hb hc.symm
      have : [(h.nextAddr, nd)].find? (fun p => p.1 == b) = none := by
        simp [List.find?, hnb]
      rw [this]
      rfl

theorem heapGet_appendNode_self {h : JSHeap} {nd : List (String × JSVal)}
    (hwf : WFH h) :
    heapGet ⟨h.nextAddr + 1, h.mem ++ [(h.nextAddr, nd)]⟩ h.nextAddr =
      some nd := by
  unfold heapGet
  simp only []
  rw [List.find?_append]
  have hleft : h.mem.find? (fun p => p.1 == h.nextAddr) = none := by
    rw [List.find?_eq_none]
    intro p hp hpb
    have := hwf p hp
    rw [beq_iff_eq] at hpb
    omega
  rw [hleft]
  simp [List.find?]

theorem GoodVal_of_frame {h h' : JSHeap} {n0 : Nat} {v : JSVal}
    (hg : GoodVal h n0 v)
    (hframe : ∀ b, b < n0 → heapGet h' b = heapGet h b) :
    GoodVal h' n0 v := by
  intro a ha
  by_cases hb : n0 ≤ a
  · exact Or.inl hb
  · rcases hg a ha with h1 | h1
    · exact Or.inl h1
    · right
      rw [hframe a (by omega)]
      exact h1

theorem frame_setNode_high {h : JSHeap} {a n0 : Nat}
    {nd : List (String × JSVal)} (ha : n0 ≤ a) :
    ∀ b, b < n0 → heapGet (heapSetNode h a nd) b = heapGet h b := by
  intro b hb
  exact heapGet_setNode_ne (by omega)

theorem frame_appendNode {h : JSHeap} {n0 : Nat}
    {nd : List (String × JSVal)} (hn0 : n0 ≤ h.nextAddr) :
    ∀ b, b < n0 →
      heapGet ⟨h.nextAddr + 1, h.mem ++ [(h.nextAddr, nd)]⟩ b =
        heapGet h b := by
  intro b hb
  exact heapGet_appendNode (by omega)

theorem WFH_setNode {h : JSHeap} {a : Nat} {nd : List (String × JSVal)}
    (hwf : WFH h) : WFH (heapSetNode h a nd) := by
  intro p hp
  rcases List.mem_map.mp hp with ⟨q, hq, himg⟩
  have hqlt := hwf q hq
  show p.1 < h.nextAddr
  by_cases hqa : (q.1 == a) = true
  · rw [if_pos hqa] at himg
    have hq1 : q.1 = a := beq_iff_eq.mp hqa
    rw [← himg]
    simpa [← hq1] using hqlt
  · rw [if_neg hqa] at himg
    rw [← himg]
    exact hqlt

theorem WFH_appendNode {h : JSHeap} {nd : List (String × JSVal)}
    (hwf : WFH h) :
    WFH (⟨h.nextAddr + 1, h.mem ++ [(h.nextAddr, nd)]⟩ : JSHeap) := by
  intro p hp
  show p.1 < h.nextAddr + 1
  rcases List.mem_append.mp hp with hmem | hmem
  · have := hwf p hmem
    omega
  · simp only [List.mem_singleton] at hmem
    rw [hmem]
    simp

theorem HC_setNode_high {h : JSHeap} {a n0 : Nat}
    {nd : List (String × JSVal)} (hhc : HC h n0) (ha : n0 ≤ a)
    (hnd : ∀ p ∈ nd, GoodVal h n0 p.2) :
    HC (heapSetNode h a nd) n0 := by
  intro a' fields' ha' hget p hp
  have hframe := @frame_setNode_high h a n0 nd ha
  by_cases haa : a' = a
  · subst haa
    cases horig : heapGet h a' with
    | some f0 =>
        rw [heapGet_setNode_self horig] at hget
        obtain rfl : nd = fields' := by injection hget
        exact GoodVal_of_frame (hnd p hp) hframe
    | none =>
        rw [heapGet_setNode_none horig] at hget
        cases hget
  · rw [heapGet_setNode_ne haa] at hget
    exact GoodVal_of_frame (hhc a' fields' ha' hget p hp) hframe

theorem HC_appendNode {h : JSHeap} {n0 : Nat} {nd : List (String × JSVal)}
    (hwf : WFH h) (hn0 : n0 ≤ h.nextAddr) (hhc : HC h n0)
    (hnd : ∀ p ∈ nd, GoodVal h n0 p.2) :
    HC (⟨h.nextAddr + 1, h.mem ++ [(h.nextAddr, nd)]⟩ : JSHeap) n0 := by
  intro a' fields' ha' hget p hp
  have hframe := @frame_appendNode h n0 nd hn0
  by_cases haa : a' = h.nextAddr
  · subst haa
    rw [heapGet_appendNode_self hwf] at hget
    obtain rfl : nd = fields' := by injection hget
    exact GoodVal_of_frame (hnd p hp) hframe
  · rw [heapGet_appendNode haa] at hget
    exact GoodVal_of_frame (hhc a' fields' ha' hget p hp) hframe

theorem writeField_props {h : JSHeap} {a : Nat} {k : String} {v : JSVal}
    {n0 : Nat} (hwf : WFH h) (hhc : HC h n0)
    (ha : n0 ≤ a ∨ heapGet h a = none) (hv : GoodVal h n0 v) :
    (∀ b, b < n0 → heapGet (writeField h a k v) b = heapGet h b) ∧
    WFH (writeField h a k v) ∧ HC (writeField h a k v) n0 ∧
    (writeField h a k v).nextAddr = h.nextAddr := by
  unfold writeField
  cases hget : heapGet h a with
  | none => exact ⟨fun b hb => rfl, hwf, hhc, rfl⟩
  | some f =>
      have han : n0 ≤ a := by
        rcases ha with h1 | h1
        · exact h1
        · rw [hget] at h1
          cases h1
      refine ⟨frame_setNode_high han, WFH_setNode hwf, ?_, rfl⟩
      apply HC_setNode_high hhc han
      intro p hp
      rcases mem_jsMapSet hp with h1 | h1
      · rw [h1]
        exact hv
      · exact hhc a f han hget p h1

theorem allocEmpty_props {h : JSHeap} {n0 : Nat} (hwf : WFH h)
    (hn0 : n0 ≤ h.nextAddr) (hhc : HC h n0) :
    (∀ b, b < n0 → heapGet (jsAllocEmpty h).2 b = heapGet h b) ∧
    WFH (jsAllocEmpty h).2 ∧ HC (jsAllocEmpty h).2 n0 ∧
    (jsAllocEmpty h).2.nextAddr = h.nextAddr + 1 ∧
    GoodVal (jsAllocEmpty h).2 n0 (jsAllocEmpty h).1 := by
  refine ⟨frame_appendNode hn0, WFH_appendNode hwf,
    HC_appendNode hwf hn0 hhc (by simp), rfl, ?_⟩
  intro b hb
  have hbn : h.nextAddr = b := by injection hb
  left
  omega

theorem jsonCopy_spec (fuel : Nat) :
    (∀ (h : JSHeap) (v v2 : JSVal) (h2 : JSHeap) (n0 : Nat),
      n0 ≤ h.nextAddr → WFH h → HC h n0 →
      jsonCopyVal fuel h v = some (v2, h2) →
      (∀ b, b < h.nextAddr → heapGet h2 b = heapGet h b) ∧
      h.nextAddr ≤ h2.nextAddr ∧ WFH h2 ∧ HC h2 n0 ∧ GoodVal h2 n0 v2) ∧
    (∀ (h : JSHeap) (l l2 : List (String × JSVal)) (h2 : JSHeap) (n0 : Nat),
      n0 ≤ h.nextAddr → WFH h → HC h n0 →
      jsonCopyFields fuel h l = some (l2, h2) →
      (∀ b, b < h.nextAddr → heapGet h2 b = heapGet h b) ∧
      h.nextAddr ≤ h2.nextAddr ∧ WFH h2 ∧ HC h2 n0 ∧
      ∀ p ∈ l2, GoodVal h2 n0 p.2) ∧
    (∀ (h : JSHeap) (l l2 : List JSVal) (h2 : JSHeap) (n0 : Nat),
      n0 ≤ h.nextAddr → WFH h → HC h n0 →
      jsonCopyElems fuel h l = some (l2, h2) →
      (∀ b, b < h.nextAddr → heapGet h2 b = heapGet h b) ∧
      h.nextAddr ≤ h2.nextAddr ∧ WFH h2 ∧ HC h2 n0 ∧
      ∀ x ∈ l2, GoodVal h2 n0 x) := by
  induction fuel with
  | zero =>
      refine ⟨?_, ?_, ?_⟩
      · intro h v v2 h2 n0 _ _ _ hres
        simp [jsonCopyVal] at hres
      · intro h l l2 h2 n0 _ _ _ hres
        simp [jsonCopyFields] at hres
      · intro h l l2 h2 n0 _ _ _ hres
        simp [jsonCopyElems] at hres
  | succ fuel ih =>
      obtain ⟨ihV, ihF, ihE⟩ := ih
      refine ⟨?_, ?_, ?_⟩
      · -- jsonCopyVal
        intro h v v2 h2 n0 hn0 hwf hhc hres
        cases v with
        | ref a =>
            simp only [jsonCopyVal] at hres
            cases hga : heapGet h a with
            | none =>
                simp only [hga] at hres
                exact Option.noConfusion hres
            | some fields =>
                simp only [hga] at hres
                cases hcf : jsonCopyFields fuel h fields with
                | none =>
                simp only [hcf] at hres
                exact Option.noConfusion hres
                | some r =>
                    obtain ⟨fields2, h2a⟩ := r
                    simp only [hcf, Option.some.injEq, Prod.mk.injEq] at hres
                    obtain ⟨rfl, rfl⟩ := hres
                    obtain ⟨hfr, hmono, hwf2, hhc2, hgood⟩ :=
                      ihF h fields fields2 h2a n0 hn0 hwf hhc hcf
                    refine ⟨?_, Nat.le_succ_of_le hmono, WFH_appendNode hwf2,
                      HC_appendNode hwf2 (by omega) hhc2 hgood, ?_⟩
                    · intro b hb
                      rw [heapGet_appendNode (by omega)]
                      exact hfr b hb
                    · intro b hb
                      have : h2a.nextAddr = b := by injection hb
                      left
                      omega
        | arrV xs =>
            simp only [jsonCopyVal] at hres
            cases hce : jsonCopyElems fuel h xs with
            | none =>
                simp only [hce] at hres
                exact Option.noConfusion hres
            | some r =>
                obtain ⟨xs2, h2a⟩ := r
                simp only [hce, Option.some.injEq, Prod.mk.injEq] at hres
                obtain ⟨rfl, rfl⟩ := hres
                obtain ⟨hfr, hmono, hwf2, hhc2, -⟩ :=
                  ihE h xs xs2 h2a n0 hn0 hwf hhc hce
                exact ⟨hfr, hmono, hwf2, hhc2, fun a ha => nomatch ha⟩
        | nullV =>
            simp only [jsonCopyVal, Option.some.injEq, Prod.mk.injEq] at hres
            obtain ⟨rfl, rfl⟩ := hres
            exact ⟨fun b hb => rfl, Nat.le_refl _, hwf, hhc,
              fun a ha => nomatch ha⟩
        | undef =>
            simp only [jsonCopyVal, Option.some.injEq, Prod.mk.injEq] at hres
            obtain ⟨rfl, rfl⟩ := hres
            exact ⟨fun b hb => rfl, Nat.le_refl _, hwf, hhc,
              fun a ha => nomatch ha⟩
        | boolV b0 =>
            simp only [jsonCopyVal, Option.some.injEq, Prod.mk.injEq] at hres
            obtain ⟨rfl, rfl⟩ := hres
            exact ⟨fun b hb => rfl, Nat.le_refl _, hwf, hhc,
              fun a ha => nomatch ha⟩
        | numV q =>
            simp only [jsonCopyVal, Option.some.injEq, Prod.mk.injEq] at hres
            obtain ⟨rfl, rfl⟩ := hres
            exact ⟨fun b hb => rfl, Nat.le_refl _, hwf, hhc,
              fun a ha => nomatch ha⟩
        | strV s =>
            simp only [jsonCopyVal, Option.some.injEq, Prod.mk.injEq] at hres
            obtain ⟨rfl, rfl⟩ := hres
            exact ⟨fun b hb => rfl, Nat.le_refl _, hwf, hhc,
              fun a ha => nomatch ha⟩
        | funcV t =>
            simp only [jsonCopyVal, Option.some.injEq, Prod.mk.injEq] at hres
            obtain ⟨rfl, rfl⟩ := hres
            exact ⟨fun b hb => rfl, Nat.le_refl _, hwf, hhc,
              fun a ha => nomatch ha⟩
      · -- jsonCopyFields
        intro h l l2 h2 n0 hn0 hwf hhc hres
        cases l with
        | nil =>
            simp only [jsonCopyFields, Option.some.injEq, Prod.mk.injEq] at hres
            obtain ⟨rfl, rfl⟩ := hres
            exact ⟨fun b hb => rfl, Nat.le_refl _, hwf, hhc, by simp⟩
        | cons kv rest =>
            obtain ⟨k, v⟩ := kv
            simp only [jsonCopyFields] at hres
            have hgeneric : ∀ (hres2 : (match jsonCopyVal fuel h v with
                | some (v2, h2) =>
                    match jsonCopyFields fuel h2 rest with
                    | some (rest2, h3) => some ((k, v2) :: rest2, h3)
                    | none => none
                | none => none) = some (l2, h2)),
                (∀ b, b < h.nextAddr → heapGet h2 b = heapGet h b) ∧
                h.nextAddr ≤ h2.nextAddr ∧ WFH h2 ∧ HC h2 n0 ∧
                ∀ p ∈ l2, GoodVal h2 n0 p.2 := by
              intro hres2
              cases hcv : jsonCopyVal fuel h v with
              | none =>
                simp only [hcv] at hres2
                exact Option.noConfusion hres2
              | some r =>
                  obtain ⟨v2a, h2a⟩ := r
                  simp only [hcv] at hres2
                  cases hcr : jsonCopyFields fuel h2a rest with
                  | none =>
                simp only [hcr] at hres2
                exact Option.noConfusion hres2
                  | some r2 =>
                      obtain ⟨rest2, h3⟩ := r2
                      simp only [hcr, Option.some.injEq, Prod.mk.injEq] at hres2
                      obtain ⟨rfl, rfl⟩ := hres2
                      obtain ⟨hfr1, hmono1, hwf1, hhc1, hgood1⟩ :=
                        ihV h v v2a h2a n0 hn0 hwf hhc hcv
                      obtain ⟨hfr2, hmono2, hwf2, hhc2, hgood2⟩ :=
                        ihF h2a rest rest2 h3 n0 (by omega) hwf1 hhc1 hcr
                      refine ⟨?_, by omega, hwf2, hhc2, ?_⟩
                      · intro b hb
                        rw [hfr2 b (by omega)]
                        exact hfr1 b hb
                      · intro p hp
                        rcases List.mem_cons.mp hp with h1 | h1
                        · subst h1
                          exact GoodVal_of_frame hgood1
                            (fun b hb => hfr2 b (by omega))
                        · exact hgood2 p h1
            cases v with
            | undef => exact ihF h rest l2 h2 n0 hn0 hwf hhc hres
            | funcV t => exact ihF h rest l2 h2 n0 hn0 hwf hhc hres
            | nullV => exact hgeneric hres
            | boolV b0 => exact hgeneric hres
            | numV q => exact hgeneric hres
            | strV s => exact hgeneric hres
            | arrV xs => exact hgeneric hres
            | ref a => exact hgeneric hres
      · -- jsonCopyElems
        intro h l l2 h2 n0 hn0 hwf hhc hres
        cases l with
        | nil =>
            simp only [jsonCopyElems, Option.some.injEq, Prod.mk.injEq] at hres
            obtain ⟨rfl, rfl⟩ := hres
            exact ⟨fun b hb => rfl, Nat.le_refl _, hwf, hhc, by simp⟩
        | cons v rest =>
            simp only [jsonCopyElems] at hres
            have hskip : ∀ (hres2 : (match jsonCopyElems fuel h rest with
                | some (rest2, h2a) => some (JSVal.nullV :: rest2, h2a)
                | none => none) = some (l2, h2)),
                (∀ b, b < h.nextAddr → heapGet h2 b = heapGet h b) ∧
                h.nextAddr ≤ h2.nextAddr ∧ WFH h2 ∧ HC h2 n0 ∧
                ∀ x ∈ l2, GoodVal h2 n0 x := by
              intro hres2
              cases hce : jsonCopyElems fuel h rest with
              | none =>
                simp only [hce] at hres2
                exact Option.noConfusion hres2
              | some r =>
                  obtain ⟨rest2, h2a⟩ := r
                  simp only [hce, Option.some.injEq, Prod.mk.injEq] at hres2
                  obtain ⟨rfl, rfl⟩ := hres2
                  obtain ⟨hfr, hmono, hwf2, hhc2, hgood⟩ :=
                    ihE h rest rest2 h2a n0 hn0 hwf hhc hce
                  refine ⟨hfr, hmono, hwf2, hhc2, ?_⟩
                  intro x hx
                  rcases List.mem_cons.mp hx with h1 | h1
                  · subst h1
                    exact fun a ha => nomatch ha
                  · exact hgood x h1
            have hgeneric : ∀ (hres2 : (match jsonCopyVal fuel h v with
                | some (v2, h2a) =>
                    match jsonCopyElems fuel h2a rest with
                    | some (rest2, h3) => some (v2 :: rest2, h3)
                    | none => none
                | none => none) = some (l2, h2)),
                (∀ b, b < h.nextAddr → heapGet h2 b = heapGet h b) ∧
                h.nextAddr ≤ h2.nextAddr ∧ WFH h2 ∧ HC h2 n0 ∧
                ∀ x ∈ l2, GoodVal h2 n0 x := by
              intro hres2
              cases hcv : jsonCopyVal fuel h v with
              | none =>
                simp only [hcv] at hres2
                exact Option.noConfusion hres2
              | some r =>
                  obtain ⟨v2a, h2a⟩ := r
                  simp only [hcv] at hres2
                  cases hcr : jsonCopyElems fuel h2a rest with
                  | none =>
                simp only [hcr] at hres2
                exact Option.noConfusion hres2
                  | some r2 =>
                      obtain ⟨rest2, h3⟩ := r2
                      simp only [hcr, Option.some.injEq, Prod.mk.injEq] at hres2
                      obtain ⟨rfl, rfl⟩ := hres2
                      obtain ⟨hfr1, hmono1, hwf1, hhc1, hgood1⟩ :=
                        ihV h v v2a h2a n0 hn0 hwf hhc hcv
                      obtain ⟨hfr2, hmono2, hwf2, hhc2, hgood2⟩ :=
                        ihE h2a rest rest2 h3 n0 (by omega) hwf1 hhc1 hcr
                      refine ⟨?_, by omega, hwf2, hhc2, ?_⟩
                      · intro b hb
                        rw [hfr2 b (by omega)]
                        exact hfr1 b hb
                      · intro x hx
                        rcases List.mem_cons.mp hx with h1 | h1
                        · subst h1
                          exact GoodVal_of_frame hgood1
                            (fun b hb => hfr2 b (by omega))
                        · exact hgood2 x h1
            cases v with
            | undef => exact hskip hres
            | funcV t => exact hskip hres
            | nullV => exact hgeneric hres
            | boolV b0 => exact hgeneric hres
            | numV q => exact hgeneric hres
            | strV s => exact hgeneric hres
            | arrV xs => exact hgeneric hres
            | ref a => exact hgeneric hres

theorem readField_GoodVal {h : JSHeap} {n0 a : Nat} {k : String}
    (hhc : HC h n0) (hta : n0 ≤ a ∨ heapGet h a = none) :
    GoodVal h n0 (readField h a k) := by
  unfold readField
  cases hbind : (heapGet h a).bind (fun f => jsMapGet f k) with
  | none =>
      rw [Option.getD_none]
      exact fun a' ha' => nomatch ha'
  | some w =>
      rw [Option.getD_some]
      obtain ⟨fields, hga, hjk⟩ := Option.bind_eq_some.mp hbind
      have han : n0 ≤ a := by
        rcases hta with h1 | h1
        · exact h1
        · rw [hga] at h1
          cases h1
      obtain ⟨p, hp, -, hv⟩ := jsMapGet_some_mem hjk
      have := hhc a fields han hga p hp
      rw [← hv]
      exact this

theorem mergeStepTarget_props {h : JSHeap} {n0 a : Nat} {k : String}
    (hwf : WFH h) (hn0 : n0 ≤ h.nextAddr) (hhc : HC h n0)
    (hta : n0 ≤ a ∨ heapGet h a = none) :
    GoodVal (mergeStepTarget h a k).2 n0 (mergeStepTarget h a k).1 ∧
    (∀ b, b < n0 → heapGet (mergeStepTarget h a k).2 b = heapGet h b) ∧
    WFH (mergeStepTarget h a k).2 ∧ HC (mergeStepTarget h a k).2 n0 ∧
    h.nextAddr ≤ (mergeStepTarget h a k).2.nextAddr ∧
    (n0 ≤ a ∨ heapGet (mergeStepTarget h a k).2 a = none) := by
  have htk := readField_GoodVal (k := k) hhc hta
  unfold mergeStepTarget
  by_cases htr : truthy (readField h a k) = true
  · rw [if_pos htr]
    exact ⟨htk, fun b hb => rfl, hwf, hhc, Nat.le_refl _, hta⟩
  · rw [if_neg htr]
    obtain ⟨hfrA, hwfA, hhcA, hnextA, hgoodA⟩ := allocEmpty_props hwf hn0 hhc
    refine ⟨hgoodA, hfrA, hwfA, hhcA, by omega, ?_⟩
    by_cases han : n0 ≤ a
    · exact Or.inl han
    · rcases hta with h1 | h1
      · exact Or.inl h1
      · right
        rw [hfrA a (by omega)]
        exact h1

theorem guardFalse_GoodVal {h : JSHeap} {n0 : Nat} {v : JSVal}
    (hguard : ¬((truthy v && isObjRefB h v) = true)) : GoodVal h n0 v := by
  intro a' ha'
  subst ha'
  right
  simp only [truthy, isObjRefB, Bool.true_and] at hguard
  cases hget : heapGet h a' with
  | none => rfl
  | some f => rw [hget] at hguard; simp at hguard

theorem mergeGo_frame (fuel : Nat) :
    ∀ (h : JSHeap) (n0 : Nat) (t : JSVal) (s : List (String × JSVal))
      (hf : JSHeap),
      n0 ≤ h.nextAddr → WFH h → HC h n0 → GoodVal h n0 t →
      mergeGo fuel h t s = some hf →
      (∀ b, b < n0 → heapGet hf b = heapGet h b) ∧
      h.nextAddr ≤ hf.nextAddr ∧ WFH hf ∧ HC hf n0 := by
  induction fuel with
  | zero =>
      intro h n0 t s hf hn0 hwf hhc hgt hres
      cases s with
      | nil =>
          simp only [mergeGo] at hres
          obtain rfl : h = hf := by injection hres
          exact ⟨fun b hb => rfl, Nat.le_refl _, hwf, hhc⟩
      | cons c rest =>
          simp only [mergeGo] at hres
          exact Option.noConfusion hres
  | succ fuel ih =>
      intro h n0 t s hf hn0 hwf hhc hgt hres
      cases s with
      | nil =>
          simp only [mergeGo] at hres
          obtain rfl : h = hf := by injection hres
          exact ⟨fun b hb => rfl, Nat.le_refl _, hwf, hhc⟩
      | cons c rest =>
          obtain ⟨k, v⟩ := c
          cases t with
          | undef =>
              simp only [mergeGo] at hres
              exact Option.noConfusion hres
          | nullV =>
              simp only [mergeGo] at hres
              exact Option.noConfusion hres
          | ref a =>
              simp only [mergeGo] at hres
              by_cases hguard : (truthy v && isObjRefB h v) = true
              · rw [if_pos hguard] at hres
                simp only [Option.bind_eq_some] at hres
                obtain ⟨h3, hinner, hloop⟩ := hres
                obtain ⟨hgood1, hfr1, hwf1, hhc1, hmono1, hta1⟩ :=
                  mergeStepTarget_props (k := k) hwf hn0 hhc (hgt a rfl)
                obtain ⟨hfr2, hwf2, hhc2, hnext2⟩ :=
                  writeField_props hwf1 hhc1 hta1 hgood1
                have hgt1 : GoodVal
                    (writeField (mergeStepTarget h a k).2 a k
                      (mergeStepTarget h a k).1) n0
                    (mergeStepTarget h a k).1 :=
                  GoodVal_of_frame hgood1 hfr2
                obtain ⟨hfr3, hmono3, hwf3, hhc3⟩ :=
                  ih _ n0 _ _ h3 (by rw [hnext2]; omega) hwf2 hhc2 hgt1 hinner
                rw [hnext2] at hmono3
                have hgt2 : GoodVal h3 n0 (JSVal.ref a) :=
                  GoodVal_of_frame
                    (GoodVal_of_frame (GoodVal_of_frame hgt hfr1) hfr2) hfr3
                obtain ⟨hfr4, hmono4, hwf4, hhc4⟩ :=
                  ih h3 n0 (JSVal.ref a) rest hf (by omega) hwf3 hhc3 hgt2 hloop
                refine ⟨?_, by omega, hwf4, hhc4⟩
                intro b hb
                rw [hfr4 b hb, hfr3 b hb, hfr2 b hb, hfr1 b hb]
              · rw [if_neg hguard] at hres
                have hgv : GoodVal h n0 v := guardFalse_GoodVal hguard
                obtain ⟨hfr2, hwf2, hhc2, hnext2⟩ :=
                  writeField_props hwf hhc (hgt a rfl) hgv
                have hgt1 : GoodVal (writeField h a k v) n0 (JSVal.ref a) :=
                  GoodVal_of_frame hgt hfr2
                obtain ⟨hfr4, hmono4, hwf4, hhc4⟩ :=
                  ih _ n0 _ rest hf (by rw [hnext2]; omega) hwf2 hhc2 hgt1 hres
                rw [hnext2] at hmono4
                refine ⟨?_, by omega, hwf4, hhc4⟩
                intro b hb
                rw [hfr4 b hb, hfr2 b hb]
          | boolV b0 =>
              simp only [mergeGo] at hres
              by_cases hguard : (truthy v && isObjRefB h v) = true
              · rw [if_pos hguard] at hres
                simp only [Option.bind_eq_some] at hres
                obtain ⟨h3, hinner, hloop⟩ := hres
                obtain ⟨hfrA, hwfA, hhcA, hnextA, -⟩ :=
                  allocEmpty_props hwf hn0 hhc
                have hgu : GoodVal (jsAllocEmpty h).2 n0 JSVal.undef :=
                  fun a' ha' => nomatch ha'
                obtain ⟨hfr3, hmono3, hwf3, hhc3⟩ :=
                  ih _ n0 _ _ h3 (by rw [hnextA]; omega) hwfA hhcA hgu hinner
                rw [hnextA] at hmono3
                have hgp3 : GoodVal h3 n0 (JSVal.boolV b0) :=
                  fun a' ha' => nomatch ha'
                obtain ⟨hfr4, hmono4, hwf4, hhc4⟩ :=
                  ih h3 n0 _ rest hf (by omega) hwf3 hhc3 hgp3 hloop
                refine ⟨?_, by omega, hwf4, hhc4⟩
                intro b hb
                rw [hfr4 b hb, hfr3 b hb, hfrA b hb]
              · rw [if_neg hguard] at hres
                have hgp : GoodVal h n0 (JSVal.boolV b0) :=
                  fun a' ha' => nomatch ha'
                exact ih h n0 _ rest hf hn0 hwf hhc hgp hres
          | numV q =>
              simp only [mergeGo] at hres
              by_cases hguard : (truthy v && isObjRefB h v) = true
              · rw [if_pos hguard] at hres
                simp only [Option.bind_eq_some] at hres
                obtain ⟨h3, hinner, hloop⟩ := hres
                obtain ⟨hfrA, hwfA, hhcA, hnextA, -⟩ :=
                  allocEmpty_props hwf hn0 hhc
                have hgu : GoodVal (jsAllocEmpty h).2 n0 JSVal.undef :=
                  fun a' ha' => nomatch ha'
                obtain ⟨hfr3, hmono3, hwf3, hhc3⟩ :=
                  ih _ n0 _ _ h3 (by rw [hnextA]; omega) hwfA hhcA hgu hinner
                rw [hnextA] at hmono3
                have hgp3 : GoodVal h3 n0 (JSVal.numV q) :=
                  fun a' ha' => nomatch ha'
                obtain ⟨hfr4, hmono4, hwf4, hhc4⟩ :=
                  ih h3 n0 _ rest hf (by omega) hwf3 hhc3 hgp3 hloop
                refine ⟨?_, by omega, hwf4, hhc4⟩
                intro b hb
                rw [hfr4 b hb, hfr3 b hb, hfrA b hb]
              · rw [if_neg hguard] at hres
                have hgp : GoodVal h n0 (JSVal.numV q) :=
                  fun a' ha' => nomatch ha'
                exact ih h n0 _ rest hf hn0 hwf hhc hgp hres
          | strV s0 =>
              simp only [mergeGo] at hres
              by_cases hguard : (truthy v && isObjRefB h v) = true
              · rw [if_pos hguard] at hres
                simp only [Option.bind_eq_some] at hres
                obtain ⟨h3, hinner, hloop⟩ := hres
                obtain ⟨hfrA, hwfA, hhcA, hnextA, -⟩ :=
                  allocEmpty_props hwf hn0 hhc
                have hgu : GoodVal (jsAllocEmpty h).2 n0 JSVal.undef :=
                  fun a' ha' => nomatch ha'
                obtain ⟨hfr3, hmono3, hwf3, hhc3⟩ :=
                  ih _ n0 _ _ h3 (by rw [hnextA]; omega) hwfA hhcA hgu hinner
                rw [hnextA] at hmono3
                have hgp3 : GoodVal h3 n0 (JSVal.strV s0) :=
                  fun a' ha' => nomatch ha'
                obtain ⟨hfr4, hmono4, hwf4, hhc4⟩ :=
                  ih h3 n0 _ rest hf (by omega) hwf3 hhc3 hgp3 hloop
                refine ⟨?_, by omega, hwf4, hhc4⟩
                intro b hb
                rw [hfr4 b hb, hfr3 b hb, hfrA b hb]
              · rw [if_neg hguard] at hres
                have hgp : GoodVal h n0 (JSVal.strV s0) :=
                  fun a' ha' => nomatch ha'
                exact ih h n0 _ rest hf hn0 hwf hhc hgp hres
          | funcV tg =>
              simp only [mergeGo] at hres
              by_cases hguard : (truthy v && isObjRefB h v) = true
              · rw [if_pos hguard] at hres
                simp only [Option.bind_eq_some] at hres
                obtain ⟨h3, hinner, hloop⟩ := hres
                obtain ⟨hfrA, hwfA, hhcA, hnextA, -⟩ :=
                  allocEmpty_props hwf hn0 hhc
                have hgu : GoodVal (jsAllocEmpty h).2 n0 JSVal.undef :=
                  fun a' ha' => nomatch ha'
                obtain ⟨hfr3, hmono3, hwf3, hhc3⟩ :=
                  ih _ n0 _ _ h3 (by rw [hnextA]; omega) hwfA hhcA hgu hinner
                rw [hnextA] at hmono3
                have hgp3 : GoodVal h3 n0 (JSVal.funcV tg) :=
                  fun a' ha' => nomatch ha'
                obtain ⟨hfr4, hmono4, hwf4, hhc4⟩ :=
                  ih h3 n0 _ rest hf (by omega) hwf3 hhc3 hgp3 hloop
                refine ⟨?_, by omega, hwf4, hhc4⟩
                intro b hb
                rw [hfr4 b hb, hfr3 b hb, hfrA b hb]
              · rw [if_neg hguard] at hres
                have hgp : GoodVal h n0 (JSVal.funcV tg) :=
                  fun a' ha' => nomatch ha'
                exact ih h n0 _ rest hf hn0 hwf hhc hgp hres
          | arrV xs =>
              simp only [mergeGo] at hres
              by_cases hguard : (truthy v && isObjRefB h v) = true
              · rw [if_pos hguard] at hres
                simp only [Option.bind_eq_some] at hres
                obtain ⟨h3, hinner, hloop⟩ := hres
                obtain ⟨hfrA, hwfA, hhcA, hnextA, -⟩ :=
                  allocEmpty_props hwf hn0 hhc
                have hgu : GoodVal (jsAllocEmpty h).2 n0 JSVal.undef :=
                  fun a' ha' => nomatch ha'
                obtain ⟨hfr3, hmono3, hwf3, hhc3⟩ :=
                  ih _ n0 _ _ h3 (by rw [hnextA]; omega) hwfA hhcA hgu hinner
                rw [hnextA] at hmono3
                have hgp3 : GoodVal h3 n0 (JSVal.arrV xs) :=
                  fun a' ha' => nomatch ha'
                obtain ⟨hfr4, hmono4, hwf4, hhc4⟩ :=
                  ih h3 n0 _ rest hf (by omega) hwf3 hhc3 hgp3 hloop
                refine ⟨?_, by omega, hwf4, hhc4⟩
                intro b hb
                rw [hfr4 b hb, hfr3 b hb, hfrA b hb]
              · rw [if_neg hguard] at hres
                have hgp : GoodVal h n0 (JSVal.arrV xs) :=
                  fun a' ha' => nomatch ha'
                exact ih h n0 _ rest hf hn0 hwf hhc hgp hres

theorem HC_at_boundary {h : JSHeap} (hwf : WFH h) : HC h h.nextAddr := by
  intro a fields ha hget p hp
  exfalso
  unfold heapGet at hget
  cases hf : h.mem.find? (fun p => p.1 == a) with
  | none => rw [hf] at hget; simp at hget
  | some q =>
      have hmem := List.mem_of_find?_eq_some hf
      have hqa := List.find?_some hf
      have := hwf q hmem
      rw [beq_iff_eq] at hqa
      omega

theorem jsonCopyVal_ref_fresh (fuel : Nat) (h : JSHeap) (a : Nat)
    (v2 : JSVal) (h2 : JSHeap) (hwf : WFH h)
    (hres : jsonCopyVal fuel h (.ref a) = some (v2, h2)) :
    ∃ b, v2 = .ref b ∧ h.nextAddr ≤ b := by
  cases fuel with
  | zero => simp [jsonCopyVal] at hres
  | succ fuel =>
      simp only [jsonCopyVal] at hres
      cases hga : heapGet h a with
      | none =>
          simp only [hga] at hres
          exact Option.noConfusion hres
      | some fields =>
          simp only [hga] at hres
          cases hcf : jsonCopyFields fuel h fields with
          | none =>
              simp only [hcf] at hres
              exact Option.noConfusion hres
          | some r =>
              obtain ⟨fields2, h2a⟩ := r
              simp only [hcf, Option.some.injEq, Prod.mk.injEq] at hres
              obtain ⟨rfl, rfl⟩ := hres
              obtain ⟨-, hmono, -, -, -⟩ :=
                (jsonCopy_spec fuel).2.1 h fields fields2 h2a h.nextAddr
                  (Nat.le_refl _) hwf (HC_at_boundary hwf) hcf
              exact ⟨h2a.nextAddr, rfl, hmono⟩

theorem mergeOptions_frame (fuel : Nat) (h : JSHeap) (dv cv : JSVal)
    (res : JSVal × JSHeap) (hwf : WFH h)
    (hres : mergeOptions fuel h dv cv = some res) :
    (∀ b, b < h.nextAddr → heapGet res.2 b = heapGet h b) ∧
    WFH res.2 ∧ h.nextAddr ≤ res.2.nextAddr ∧
    (∀ a, dv = .ref a → ∃ b, res.1 = .ref b ∧ h.nextAddr ≤ b) := by
  unfold mergeOptions at hres
  cases hcv : jsonCopyVal fuel h dv with
  | none =>
      simp only [hcv] at hres
      exact Option.noConfusion hres
  | some r =>
      obtain ⟨merged, h1⟩ := r
      simp only [hcv] at hres
      cases hmg : mergeGo fuel h1 merged (enumFields h1 cv) with
      | none =>
          simp only [hmg] at hres
          exact Option.noConfusion hres
      | some h2 =>
          simp only [hmg, Option.some.injEq] at hres
          subst hres
          obtain ⟨hfr1, hmono1, hwf1, hhc1, hgood1⟩ :=
            (jsonCopy_spec fuel).1 h dv merged h1 h.nextAddr (Nat.le_refl _)
              hwf (HC_at_boundary hwf) hcv
          obtain ⟨hfr2, hmono2, hwf2, hhc2⟩ :=
            mergeGo_frame fuel h1 h.nextAddr merged (enumFields h1 cv) h2
              hmono1 hwf1 hhc1 hgood1 hmg
          refine ⟨?_, hwf2, le_trans hmono1 hmono2, ?_⟩
          · intro b hb
            rw [hfr2 b hb, hfr1 b hb]
          · intro a hdv
            subst hdv
            obtain ⟨b, hb1, hb2⟩ :=
              jsonCopyVal_ref_fresh fuel h a merged h1 hwf hcv
            exact ⟨b, hb1, hb2⟩

/-- Repeated createChart calls: each call runs mergeOptions on the same
defaults value with its own custom options, threading the heap (a merge
that throws modified fresh nodes only, so its partial heap is dropped). -/
def mergeOptionsRuns (dv : JSVal) : JSHeap → List (Nat × JSVal) → JSHeap
  | h, [] => h
  | h, (fuel, cv) :: rest =>
      match mergeOptions fuel h dv cv with
      | some r => mergeOptionsRuns dv r.2 rest
      | none => mergeOptionsRuns dv h rest

theorem mergeOptionsRuns_frame (dv : JSVal) (calls : List (Nat × JSVal)) :
    ∀ (h : JSHeap), WFH h →
      (∀ b, b < h.nextAddr →
        heapGet (mergeOptionsRuns dv h calls) b = heapGet h b) ∧
      WFH (mergeOptionsRuns dv h calls) ∧
      h.nextAddr ≤ (mergeOptionsRuns dv h calls).nextAddr := by
  induction calls with
  | nil =>
      intro h hwf
      exact ⟨fun b hb => rfl, hwf, Nat.le_refl _⟩
  | cons c rest ihc =>
      intro h hwf
      obtain ⟨fuel, cv⟩ := c
      simp only [mergeOptionsRuns]
      cases hmo : mergeOptions fuel h dv cv with
      | none =>
          simp only [hmo]
          exact ihc h hwf
      | some r =>
          simp only [hmo]
          obtain ⟨hfr, hwf2, hmono, -⟩ :=
            mergeOptions_frame fuel h dv cv r hwf hmo
          obtain ⟨hfrR, hwfR, hmonoR⟩ := ihc r.2 hwf2
          refine ⟨?_, hwfR, by omega⟩
          intro b hb
          rw [hfrR b (by omega), hfr b hb]

/-- C10: mergeOptions operates on a JSON round-trip copy of the manager's
defaultOptions (the returned options object is freshly allocated, distinct
from the defaults object) and never mutates any pre-existing heap object:
every address that existed before the call, including the whole
defaultOptions structure and the caller's customOptions structure, reads
back unchanged; consequently after any sequence of createChart merges
against the same defaults, every original object is unchanged from
construction time. -/
theorem C10_merge_options_no_mutation (fuel : Nat) (h : JSHeap)
    (dv cv : JSVal) (res : JSVal × JSHeap) (hwf : WFH h)
    (hdv : ∀ a, dv = .ref a → a < h.nextAddr)
    (hcvlt : ∀ a, cv = .ref a → a < h.nextAddr)
    (hres : mergeOptions fuel h dv cv = some res) :
    (∀ b, b < h.nextAddr → heapGet res.2 b = heapGet h b) ∧
    (∀ a, dv = .ref a → heapGet res.2 a = heapGet h a) ∧
    (∀ a, cv = .ref a → heapGet res.2 a = heapGet h a) ∧
    (∀ a, dv = .ref a → ∃ b, res.1 = .ref b ∧ h.nextAddr ≤ b ∧ b ≠ a) ∧
    (∀ calls : List (Nat × JSVal), ∀ b, b < h.nextAddr →
      heapGet (mergeOptionsRuns dv h calls) b = heapGet h b) := by
  obtain ⟨hfr, hwf2, hmono, hfresh⟩ :=
    mergeOptions_frame fuel h dv cv res hwf hres
  refine ⟨hfr, ?_, ?_, ?_, ?_⟩
  · intro a ha
    exact hfr a (hdv a ha)
  · intro a ha
    exact hfr a (hcvlt a ha)
  · intro a ha
    obtain ⟨b, hb1, hb2⟩ := hfresh a ha
    have := hdv a ha
    exact ⟨b, hb1, hb2, by omega⟩
  · intro calls b hb
    exact (mergeOptionsRuns_frame dv calls h hwf).1 b hb

/-- Concrete heap for the witness: addresses 0-8 hold the ChartManager
constructor's defaultOptions object graph (labels, legend, plugins, the
two grid objects, y, x, scales, root), addresses 9-14 hold the custom
options object passed by create7DayTrendChart (title, plugins, the y axis
title, y, scales, root). -/
def c10Heap : JSHeap :=
  ⟨15,
   [(0, [("usePointStyle", .boolV true), ("padding", .numV 20)]),
    (1, [("position", .strV "bottom"), ("labels", .ref 0)]),
    (2, [("legend", .ref 1)]),
    (3, [("color", .strV "rgba(0, 0, 0, 0.1)")]),
    (4, [("beginAtZero", .boolV true), ("grid", .ref 3)]),
    (5, [("color", .strV "rgba(0, 0, 0, 0.1)")]),
    (6, [("grid", .ref 5)]),
    (7, [("y", .ref 4), ("x", .ref 6)]),
    (8, [("responsive", .boolV true), ("maintainAspectRatio", .boolV false),
         ("plugins", .ref 2), ("scales", .ref 7)]),
    (9, [("display", .boolV true), ("text", .strV "Last 7 Days Activity")]),
    (10, [("title", .ref 9)]),
    (11, [("display", .boolV true), ("text", .strV "Count")]),
    (12, [("beginAtZero", .boolV true), ("title", .ref 11)]),
    (13, [("y", .ref 12)]),
    (14, [("plugins", .ref 10), ("scales", .ref 13)])]⟩

/-- The defaultOptions value in the witness heap. -/
def c10Defaults : JSVal := .ref 8

/-- The custom options value in the witness heap. -/
def c10Custom : JSVal := .ref 14

/-- Result of the witness merge (defined via getD so the witness can name
it without spelling out the merged heap). -/
def c10Result : JSVal × JSHeap :=
  (mergeOptions 30 c10Heap c10Defaults c10Custom).getD (JSVal.undef, c10Heap)

/-- Witness for C10: merging create7DayTrendChart's custom options into
the concrete defaultOptions graph leaves every one of the fifteen
original objects unchanged, and the merged result is a fresh object
distinct from the defaults root. -/
theorem C10_witness :
    (∀ b, b < c10Heap.nextAddr →
      heapGet c10Result.2 b = heapGet c10Heap b) ∧
    (∀ a, c10Defaults = .ref a → heapGet c10Result.2 a = heapGet c10Heap a) ∧
    (∀ a, c10Custom = .ref a → heapGet c10Result.2 a = heapGet c10Heap a) ∧
    (∀ a, c10Defaults = .ref a →
      ∃ b, c10Result.1 = .ref b ∧ c10Heap.nextAddr ≤ b ∧ b ≠ a) ∧
    (∀ calls : List (Nat × JSVal), ∀ b, b < c10Heap.nextAddr →
      heapGet (mergeOptionsRuns c10Defaults c10Heap calls) b =
        heapGet c10Heap b) :=
  C10_merge_options_no_mutation 30 c10Heap c10Defaults c10Custom c10Result
    (by unfold WFH c10Heap; decide)
    (by intro a ha; simp [c10Defaults] at ha; show a < 15; omega)
    (by intro a ha; simp [c10Custom] at ha; show a < 15; omega)
    rfl
